import Mathlib

/-!
Verification of the WACC code-generation core (src/codegen.go) against its
design specification.  The Go source is shallowly embedded: the instruction
model is a plain inductive, the register allocator is a state record, and
every CodeGen method becomes a Lean function from allocator state to
(new state, emitted events).  Events record the emitted instructions
together with markers for the allocator handing out and taking back
registers, so that claims about emission order relative to GetReg and
FreeReg calls can be stated; the plain instruction stream is recovered by
filtering the markers out.
-/

namespace WACC

/-- Registers are modelled by their number: r0 .. r11, ip = 12, sp = 13,
lr = 14, pc = 15. -/
abbrev RegId := Nat

def spReg : RegId := 13
def lrReg : RegId := 14
def pcReg : RegId := 15
def ipReg : RegId := 12

/-- Condition codes, as listed in the spec for the instruction model.
The instruction definitions live in a source file that is not part of
src/, but every use site in src/codegen.go fixes the set of codes. -/
inductive Cond
  | AL | EQ | NE | LT | LE | GT | GE | VS | CS
deriving DecidableEq, Repr

/-- Modelled from the spec: the condition helper returning the logical
complement of a code (spec 4.1, used to materialise boolean comparisons
into 0 or 1).  Its implementation file is missing from src/; only the six
comparison codes ever reach it from src/codegen.go. -/
def Cond.getOpposite : Cond → Cond
  | .EQ => .NE
  | .NE => .EQ
  | .LT => .GE
  | .LE => .GT
  | .GT => .LE
  | .GE => .LT
  | .AL => .AL
  | .VS => .VS
  | .CS => .CS

/-- Second operands of data-processing instructions, as used by
src/codegen.go: immediates, character literals, plain registers,
a register with an ASR shift (RegisterOperand) and a register with an
LSL shift (LSLRegOperand). -/
inductive Operand
  | imm (n : Int)
  | chr (c : Char)
  | reg (r : RegId)
  | asr (r : RegId) (amount : Nat)
  | lslReg (r : RegId) (offset : Nat)
deriving DecidableEq, Repr

/-- Load operands: BasicLoadOperand (=symbol), ConstLoadOperand (=const)
and RegisterLoadOperand ([reg, #off]). -/
inductive LoadOperand
  | lbl (s : String)
  | constL (n : Int)
  | regOff (r : RegId) (off : Int)
deriving DecidableEq, Repr

/-- Store operands: MemoryStoreOperand ([sp, #off]), RegStoreOperand
([reg]) and RegStoreOffsetOperand ([reg, #off]). -/
inductive StoreOperand
  | memOff (off : Int)
  | regS (r : RegId)
  | regOffS (r : RegId) (off : Int)
deriving DecidableEq, Repr

/-- The ARM instructions emitted by src/codegen.go.  Each constructor
mirrors one Go instruction struct. -/
inductive Instr
  | PUSH (regs : List RegId)
  | POP (regs : List RegId)
  | LABEL (ident : String)
  | MOV (cond : Cond) (dest : RegId) (src : Operand)
  | LDR (cond : Cond) (reg : RegId) (val : LoadOperand)
  | STR (reg : RegId) (val : StoreOperand)
  | ADD (dest : RegId) (lhs : RegId) (rhs : Operand)
  | SUB (dest : RegId) (lhs : RegId) (rhs : Operand)
  | AND (dest : RegId) (lhs : RegId) (rhs : Operand)
  | ORR (dest : RegId) (lhs : RegId) (rhs : Operand)
  | NOT (dest : RegId) (arg : RegId)
  | NEG (dest : RegId) (arg : RegId)
  | SMULL (rdLo : RegId) (rdHi : RegId) (rm : RegId) (rs : RegId)
  | CMP (lhs : RegId) (rhs : Operand)
  | TEQ (lhs : RegId) (rhs : Operand)
  | B (cond : Cond) (label : String)
  | BL (cond : Cond) (label : String)
  | LTORG
  | DataSeg
  | TextSeg
  | Global (s : String)
  | DataWord (n : Int)
  | DataAscii (s : List Char)
deriving DecidableEq, Repr

/-- An emission event: either an instruction sent to the channel, or a
marker recording that GetReg handed out a register or that FreeReg took
one back.  The markers instrument the embedding; the generated
instruction stream is the events with markers removed. -/
inductive Event
  | ins (i : Instr)
  | getR (r : RegId)
  | freeR (r : RegId)
deriving DecidableEq, Repr

/-- The instruction stream of an event trace. -/
def instrsOf (evs : List Event) : List Instr :=
  evs.filterMap fun e =>
    match e with
    | .ins i => some i
    | _ => none

theorem instrsOf_append (a b : List Event) :
    instrsOf (a ++ b) = instrsOf a ++ instrsOf b := by
  simp [instrsOf]

-- The label and message constants of src/codegen.go (lines 20-59).

def mPrintString : String := "%.*s\\0"
def mPrintInt : String := "%d\\0"
def mReadChar : String := " %c\\0"
def mPrintReference : String := "%p\\0"
def mNewLine : String := "\\n\\0"
def mPutChar : String := "putchar"
def mTrue : String := "true\\0"
def mFalse : String := "false\\0"
def mFFlush : String := "fflush"
def mPrintf : String := "printf"
def mScanf : String := "scanf"
def mFreeLabel : String := "free"
def mPrintNewLineLabel : String := "p_print_ln"
def mPrintIntLabel : String := "p_print_int"
def mPrintStringLabel : String := "p_print_string"
def mPrintStringLoopLabel : String := "p_print_string_loop"
def mPrintStringEndLabel : String := "p_print_string_return"
def mPrintCharLabel : String := "p_print_char"
def mPrintBoolLabel : String := "p_print_bool"
def mPrintReferenceLabel : String := "p_print_reference"
def mReadIntLabel : String := "p_read_int"
def mReadCharLabel : String := "p_read_char"
def mExitLabel : String := "exit"
def mMalloc : String := "malloc"
def mThrowRuntimeErr : String := "p_throw_runtime_error"
def mDivideByZeroLbl : String := "p_check_divide_by_zero"
def mNullReferenceLbl : String := "pi_check_null_pointer"
def mOverflowLbl : String := "p_throw_overflow_error"
def mArrayBoundLbl : String := "p_check_array_bounds"
def mDivideByZeroErr : String := "DivideByZeroError: divide or modulo by zero\\n\\0"
def mNullReferenceErr : String := "NullReferenceError: dereference a null reference\\n\\0"
def mArrayNegIndexErr : String := "ArrayIndexOutOfBoundsError: negative index\\n\\0"
def mArrayLrgIndexErr : String := "ArrayIndexOutOfBoundsError: index too large\\n\\0"
def mOverflowErr : String :=
  "OverflowError: the result is too small/large to store in a 4-byte signed-integer.\\n\\0"

/-- One interned string: DataString in the source, a length (the Go int
field) and the stored payload.  The payload is modelled as a character
list, matching the byte string the Go code builds for ASCII input. -/
structure DataString where
  len : Int
  str : List Char
deriving DecidableEq, Repr

/-- A scope: the Go map from variable name to declaration offset,
modelled as an association list with replace-on-insert, which preserves
the Go map semantics used by the source (lookup by key, count of
distinct keys). -/
abbrev Scope := List (String × Int)

/-- Setting a key in a scope: replaces the binding if the key is present,
appends it otherwise (Go map assignment). -/
def scopeSet (sc : Scope) (k : String) (v : Int) : Scope :=
  if sc.any (fun p => p.1 = k) then
    sc.map (fun p => if p.1 = k then (k, v) else p)
  else
    sc ++ [(k, v)]

/-- Looking a key up in a scope (Go map read with ok flag). -/
def scopeGet (sc : Scope) (k : String) : Option Int :=
  (sc.find? (fun p => p.1 = k)).map (fun p => p.2)

/-- RegAllocator (src/codegen.go lines 136-145) together with the two
shared pools it references.  The usage array is modelled as a function
from register number to count; regs is the rotating allocation list;
stack is the scope stack with the innermost scope first.  The panicked
flag models the Go panic calls: once set, the run is a contract
violation (the real program aborts). -/
structure Alloc where
  regs : List RegId
  usage : RegId → Nat
  stringPool : List DataString
  fsPool : List String
  fname : String
  labelCounter : Nat
  stackSize : Int
  stack : List Scope
  panicked : Bool

/-- CreateRegAllocator: all general purpose registers, zero usage. -/
def createRegAllocator : Alloc :=
  { regs := [4, 5, 6, 7, 8, 9, 10, 11]
    usage := fun _ => 0
    stringPool := []
    fsPool := []
    fname := ""
    labelCounter := 0
    stackSize := 0
    stack := []
    panicked := false }

/-- PushStack. -/
def Alloc.pushStack (a : Alloc) (size : Int) : Alloc :=
  { a with stackSize := a.stackSize + size }

/-- PopStack. -/
def Alloc.popStack (a : Alloc) (size : Int) : Alloc :=
  { a with stackSize := a.stackSize - size }

/-- GetReg (src/codegen.go lines 159-176): take the head of the rotation
list, spill it with a PUSH if it is already in use, bump its usage and
rotate it to the tail.  Returns the register, the new state and the
emitted events. -/
def getReg (a : Alloc) : RegId × Alloc × List Event :=
  let r := a.regs.headD 0
  let spill := 0 < a.usage r
  let evs := (if spill then [Event.ins (Instr.PUSH [r])] else []) ++ [Event.getR r]
  let a1 :=
    { a with
      stackSize := a.stackSize + (if spill then 4 else 0)
      usage := fun x => if x = r then a.usage r + 1 else a.usage x
      regs := a.regs.tail ++ [r] }
  (r, a1, evs)

/-- FreeReg (src/codegen.go lines 179-198): must be called on the tail of
the rotation list, otherwise the Go code panics (modelled by the
panicked flag).  If the usage count was above one a POP restores the
spilled value and the stack is debited; the usage count drops and the
register rotates back to the head. -/
def freeReg (r : RegId) (a : Alloc) : Alloc × List Event :=
  if r ≠ a.regs.getLastD 0 then
    ({ a with panicked := true }, [])
  else
    let unspill := 1 < a.usage r
    let evs := (if unspill then [Event.ins (Instr.POP [r])] else []) ++ [Event.freeR r]
    let a1 :=
      { a with
        stackSize := a.stackSize - (if unspill then 4 else 0)
        usage := fun x => if x = r then a.usage r - 1 else a.usage x
        regs := r :: a.regs.dropLast }
    (a1, evs)

/-- GetUniqueLabelSuffix. -/
def getUniqueLabelSuffix (a : Alloc) : String × Alloc :=
  ("_" ++ a.fname ++ "_" ++ toString a.labelCounter,
    { a with labelCounter := a.labelCounter + 1 })

/-- DeclareVar (src/codegen.go lines 219-229): grow the stack size by 4,
bind the name to the new stack size in the innermost scope and emit the
sp decrement. -/
def declareVar (ident : String) (a : Alloc) : Alloc × List Event :=
  let a1 := a.pushStack 4
  let a2 :=
    { a1 with
      stack :=
        match a1.stack with
        | [] => []
        | sc :: rest => scopeSet sc ident a1.stackSize :: rest }
  (a2, [Event.ins (Instr.SUB spReg spReg (Operand.imm 4))])

/-- ResolveVar (src/codegen.go lines 232-240): innermost-first lookup of
the declaration offset, returned relative to the current stack size.
The Go code panics if the name is missing; the model returns 0 there,
which is only reachable for programs that are not well scoped. -/
def resolveVar (ident : String) (a : Alloc) : Int :=
  match a.stack.findSome? (fun sc => scopeGet sc ident) with
  | some v => a.stackSize - v
  | none => 0

/-- StartScope: prepend an empty scope. -/
def startScope (a : Alloc) : Alloc :=
  { a with stack := ([] : Scope) :: a.stack }

/-- The ADD sp chunks of CleanupScope, at most 255 bytes each.  The Go
loop steps o down by 255 while it stays positive; the fuel argument,
instantiated with o itself, bounds the number of steps so that the
recursion is structural. -/
def addChunksF : Nat → Nat → List Event
  | 0, _ => []
  | fuel + 1, o =>
    if o = 0 then []
    else Event.ins (Instr.ADD spReg spReg (Operand.imm (Int.ofNat (min o 255)))) ::
      addChunksF fuel (o - 255)

def addChunks (o : Nat) : List Event := addChunksF o o

/-- CleanupScope (src/codegen.go lines 248-265): reclaim four bytes per
name in the innermost scope in chunks of at most 255, shrink the stack
size and pop the scope. -/
def cleanupScope (a : Alloc) : Alloc × List Event :=
  let sl := 4 * (a.stack.headD []).length
  let a1 := { a.popStack (Int.ofNat sl) with stack := a.stack.tail }
  (a1, addChunks sl)

/-- StringPool.Lookup8 (src/codegen.go lines 304-319): intern the raw
bytes at the next index and return the msg label. -/
def lookup8 (msg : List Char) (pool : List DataString) : String × List DataString :=
  ("msg_" ++ toString pool.length,
    pool ++ [{ len := Int.ofNat msg.length, str := msg }])

/-- The widening loop body of Lookup32 (src/codegen.go lines 340-347),
returning the built payload and the number of backslashes seen. -/
def lookup32Loop : List Char → List Char × Nat
  | [] => ([], 0)
  | c :: cs =>
    let r := lookup32Loop cs
    if c = '\\' then (c :: r.1, r.2 + 1)
    else (c :: ("\\000\\000\\000".toList) ++ r.1, r.2)

/-- StringPool.Lookup32 (src/codegen.go lines 324-352). -/
def lookup32 (msg : List Char) (pool : List DataString) : String × List DataString :=
  let r := lookup32Loop msg
  ("msg_" ++ toString pool.length,
    pool ++ [{ len := Int.ofNat msg.length - Int.ofNat r.2, str := r.1 }])

/-- FSPool.Add: Go map insert, modelled as a no-duplicate append. -/
def fsAdd (name : String) (pool : List String) : List String :=
  if name ∈ pool then pool else pool ++ [name]

-- Allocator-level wrappers for the shared pools.

def Alloc.lookup8A (msg : List Char) (a : Alloc) : String × Alloc :=
  let r := lookup8 msg a.stringPool
  (r.1, { a with stringPool := r.2 })

def Alloc.lookup32A (msg : List Char) (a : Alloc) : String × Alloc :=
  let r := lookup32 msg a.stringPool
  (r.1, { a with stringPool := r.2 })

def Alloc.fsAddA (name : String) (a : Alloc) : Alloc :=
  { a with fsPool := fsAdd name a.fsPool }

/-!
The typed AST, following src/unnamed/part_000 (ast.go).  Statements keep
the linked-list structure of the source: every statement carries its
next pointer, with nilS standing for the Go nil at the end of a chain.
The expression parser consumes ExprParen nodes while building the tree
(parseExpr, popop drops them), so parenthesis nodes never occur in the
AST handed to the lowerer and are not part of the expression type.
-/

/-- WACC types, as far as code generation inspects them: the print and
read lowering dispatch on the outer constructor only (and on the base of
an array).  Modelled from the spec: expressions expose their resolved
static type (the caching Type method is in a source file missing from
src/). -/
inductive Ty
  | intT | boolT | charT | pairT | arrayT (base : Ty) | invalidT
deriving DecidableEq, Repr

/-- WACC expressions.  Identifiers and array elements carry their static
type, standing for the Type method of the missing typed-AST file. -/
inductive Expr
  | identE (ident : String) (ty : Ty)
  | intLit (value : Int)
  | boolLitTrue
  | boolLitFalse
  | charLit (c : Char)
  | strLit (s : List Char)
  | nullPair
  | arrayElem (ident : String) (indexes : List Expr) (ty : Ty)
  | notE (e : Expr)
  | negE (e : Expr)
  | lenE (e : Expr)
  | ordE (e : Expr)
  | chrE (e : Expr)
  | mult (lhs rhs : Expr)
  | divE (lhs rhs : Expr)
  | modE (lhs rhs : Expr)
  | add (lhs rhs : Expr)
  | sub (lhs rhs : Expr)
  | gt (lhs rhs : Expr)
  | ge (lhs rhs : Expr)
  | lt (lhs rhs : Expr)
  | le (lhs rhs : Expr)
  | eq (lhs rhs : Expr)
  | ne (lhs rhs : Expr)
  | andE (lhs rhs : Expr)
  | orE (lhs rhs : Expr)

/-- The static type of an expression, for the print and read dispatch. -/
def exprType : Expr → Ty
  | .identE _ ty => ty
  | .intLit _ => .intT
  | .boolLitTrue => .boolT
  | .boolLitFalse => .boolT
  | .charLit _ => .charT
  | .strLit _ => .arrayT .charT
  | .nullPair => .pairT
  | .arrayElem _ _ ty => ty
  | .notE _ => .boolT
  | .negE _ => .intT
  | .lenE _ => .intT
  | .ordE _ => .intT
  | .chrE _ => .charT
  | .mult _ _ => .intT
  | .divE _ _ => .intT
  | .modE _ _ => .intT
  | .add _ _ => .intT
  | .sub _ _ => .intT
  | .gt _ _ => .boolT
  | .ge _ _ => .boolT
  | .lt _ _ => .boolT
  | .le _ _ => .boolT
  | .eq _ _ => .boolT
  | .ne _ _ => .boolT
  | .andE _ _ => .boolT
  | .orE _ _ => .boolT

/-- Left-hand sides of assignments.  The variable and array forms carry
the static type used by the read statement dispatch. -/
inductive LHS
  | pairElemLHS (snd : Bool) (expr : Expr) (ty : Ty)
  | arrayLHS (ident : String) (index : List Expr) (ty : Ty)
  | varLHS (ident : String) (ty : Ty)

def lhsType : LHS → Ty
  | .pairElemLHS _ _ ty => ty
  | .arrayLHS _ _ ty => ty
  | .varLHS _ ty => ty

/-- Right-hand sides of assignments. -/
inductive RHS
  | pairLiterRHS (fstE sndE : Expr)
  | arrayLiterRHS (elements : List Expr)
  | pairElemRHS (snd : Bool) (expr : Expr)
  | functionCallRHS (ident : String) (args : List Expr)
  | expressionRHS (expr : Expr)

/-- Statements, with the next pointer of the Go BaseStatement made
explicit; nilS is the Go nil ending a chain. -/
inductive Stmt
  | skipS (next : Stmt)
  | blockS (body : Stmt) (next : Stmt)
  | declareS (ident : String) (rhs : RHS) (next : Stmt)
  | assignS (target : LHS) (rhs : RHS) (next : Stmt)
  | readS (target : LHS) (next : Stmt)
  | freeS (expr : Expr) (next : Stmt)
  | returnS (expr : Expr) (next : Stmt)
  | exitS (expr : Expr) (next : Stmt)
  | printlnS (expr : Expr) (next : Stmt)
  | printS (expr : Expr) (next : Stmt)
  | ifS (cond : Expr) (trueStat falseStat : Stmt) (next : Stmt)
  | whileS (cond : Expr) (body : Stmt) (next : Stmt)
  | nilS

/-!
Weight functions (src/codegen.go lines 1322-1418).  The Go methods cache
their result in weightCache, guarded by cache > 0; the functions below
compute the same values directly, which agrees with the source because
the computed weight of a node is determined by the node alone.
-/

def maxWeight (x y : Int) : Int := if x > y then x else y

def minWeight (x y : Int) : Int := if x < y then x else y

/-- The binary operator weight formula of BinaryOperatorBase.Weight. -/
def binWeight (l r : Int) : Int :=
  minWeight (maxWeight l (r + 1)) (maxWeight (l + 1) r)

mutual

/-- Weight of an expression.  Literals and identifiers weigh 1; unary
operators inherit the weight of their operand; binary operators use the
Sethi-Ullman formula; ArrayElem runs a minimum-tracking loop over its
indexes starting from the zero-valued cache and then increments it. -/
def weight : Expr → Int
  | .identE _ _ => 1
  | .intLit _ => 1
  | .boolLitTrue => 1
  | .boolLitFalse => 1
  | .charLit _ => 1
  | .strLit _ => 1
  | .nullPair => 1
  | .arrayElem _ indexes _ => weightIdxLoop 0 indexes + 1
  | .notE e => weight e
  | .negE e => weight e
  | .lenE e => weight e
  | .ordE e => weight e
  | .chrE e => weight e
  | .mult l r => binWeight (weight l) (weight r)
  | .divE l r => binWeight (weight l) (weight r)
  | .modE l r => binWeight (weight l) (weight r)
  | .add l r => binWeight (weight l) (weight r)
  | .sub l r => binWeight (weight l) (weight r)
  | .gt l r => binWeight (weight l) (weight r)
  | .ge l r => binWeight (weight l) (weight r)
  | .lt l r => binWeight (weight l) (weight r)
  | .le l r => binWeight (weight l) (weight r)
  | .eq l r => binWeight (weight l) (weight r)
  | .ne l r => binWeight (weight l) (weight r)
  | .andE l r => binWeight (weight l) (weight r)
  | .orE l r => binWeight (weight l) (weight r)

/-- The loop of ArrayElem.Weight: replace the accumulator by an index
weight whenever the accumulator exceeds it. -/
def weightIdxLoop (acc : Int) : List Expr → Int
  | [] => acc
  | e :: rest => weightIdxLoop (if acc > weight e then weight e else acc) rest

end

/-!
Expression code generation (src/codegen.go lines 867-1316).  Every
function takes the allocator state and returns the new state together
with the emitted event list.
-/

/-- The result of the shared binary operator prelude: the state after
both operands are lowered, the events emitted so far, the second
register, and whether the left operand was evaluated first. -/
structure OrderedRes where
  a : Alloc
  evs : List Event
  t2 : RegId
  lhsFirst : Bool

/-- The shared prelude of every binary operator CodeGen method: if the
left operand weighs more it is evaluated first into the target and the
right one into a freshly obtained register, otherwise the right operand
is evaluated first.  The two lowerings are passed as functions of the
target register and the allocator state. -/
def codeGenOrderedF (genL genR : RegId → Alloc → Alloc × List Event) (wl wr : Int)
    (target : RegId) (a : Alloc) : OrderedRes :=
  if wl > wr then
    let p1 := genL target a
    let g := getReg p1.1
    let p2 := genR g.1 g.2.1
    { a := p2.1, evs := p1.2 ++ g.2.2 ++ p2.2, t2 := g.1, lhsFirst := true }
  else
    let p1 := genR target a
    let g := getReg p1.1
    let p2 := genL g.1 g.2.1
    { a := p2.1, evs := p1.2 ++ g.2.2 ++ p2.2, t2 := g.1, lhsFirst := false }

/-- CodeGenComparators (src/codegen.go lines 1199-1223): both branches
emit the same CMP with the second register first; MOV on the condition
and its opposite materialise the boolean. -/
def codeGenComparatorsF (genL genR : RegId → Alloc → Alloc × List Event) (wl wr : Int)
    (target : RegId) (a : Alloc) (cond : Cond) : Alloc × List Event :=
  let p := codeGenOrderedF genL genR wl wr target a
  let f := freeReg p.t2 p.a
  (f.1, p.evs ++ f.2 ++
    [Event.ins (Instr.CMP p.t2 (Operand.reg target)),
     Event.ins (Instr.MOV cond target (Operand.imm 1)),
     Event.ins (Instr.MOV cond.getOpposite target (Operand.imm 0))])

mutual

/-- CodeGen of expressions into a caller-supplied target register. -/
def codeGenExpr (e : Expr) (target : RegId) (a : Alloc) : Alloc × List Event :=
  match e with
  | .identE ident _ =>
    (a, [Event.ins (Instr.LDR .AL target (LoadOperand.regOff spReg (resolveVar ident a)))])
  | .intLit n =>
    (a, [Event.ins (Instr.LDR .AL target (LoadOperand.constL n))])
  | .boolLitTrue =>
    (a, [Event.ins (Instr.MOV .AL target (Operand.imm 1))])
  | .boolLitFalse =>
    (a, [Event.ins (Instr.MOV .AL target (Operand.imm 0))])
  | .charLit c =>
    (a, [Event.ins (Instr.MOV .AL target (Operand.chr c))])
  | .strLit s =>
    let r := a.lookup32A s
    (r.2, [Event.ins (Instr.LDR .AL target (LoadOperand.lbl r.1))])
  | .nullPair =>
    (a, [Event.ins (Instr.MOV .AL target (Operand.imm 0))])
  | .arrayElem ident indexes _ =>
    let e0 := Event.ins (Instr.ADD target spReg (Operand.imm (resolveVar ident a)))
    let g := getReg a
    let p := arrayIdxLoop indexes g.1 target g.2.1
    let f := freeReg g.1 p.1
    (f.1, (e0 :: g.2.2 ++ p.2 ++ f.2) ++
      [Event.ins (Instr.LDR .AL target (LoadOperand.regOff target 0))])
  | .notE e1 =>
    let r := codeGenExpr e1 target a
    (r.1, r.2 ++ [Event.ins (Instr.NOT target target)])
  | .negE e1 =>
    let r := codeGenExpr e1 target a
    (r.1, r.2 ++ [Event.ins (Instr.NEG target target),
      Event.ins (Instr.BL .VS mOverflowLbl)])
  | .lenE e1 =>
    let r := codeGenExpr e1 target a
    (r.1, r.2 ++ [Event.ins (Instr.LDR .AL target (LoadOperand.regOff target 0))])
  | .ordE e1 => codeGenExpr e1 target a
  | .chrE e1 => codeGenExpr e1 target a
  | .mult l r =>
    let p := codeGenOrderedF (fun t a => codeGenExpr l t a) (fun t a => codeGenExpr r t a)
      (weight l) (weight r) target a
    let a2 := p.a.fsAddA mOverflowLbl
    let f := freeReg p.t2 a2
    (f.1, p.evs ++ f.2 ++
      [Event.ins (Instr.SMULL target p.t2 target p.t2),
       Event.ins (Instr.CMP p.t2 (Operand.asr target 31)),
       Event.ins (Instr.BL .NE mOverflowLbl)])
  | .divE l r =>
    let p := codeGenOrderedF (fun t a => codeGenExpr l t a) (fun t a => codeGenExpr r t a)
      (weight l) (weight r) target a
    let lhsResult := if p.lhsFirst then target else p.t2
    let rhsResult := if p.lhsFirst then p.t2 else target
    let a2 := p.a.fsAddA mDivideByZeroLbl
    let f := freeReg p.t2 a2
    (f.1, p.evs ++
      [Event.ins (Instr.MOV .AL 0 (Operand.reg lhsResult)),
       Event.ins (Instr.MOV .AL 1 (Operand.reg rhsResult)),
       Event.ins (Instr.BL .AL mDivideByZeroLbl),
       Event.ins (Instr.BL .AL "__aeabi_idiv"),
       Event.ins (Instr.MOV .AL target (Operand.reg 0))] ++ f.2)
  | .modE l r =>
    let p := codeGenOrderedF (fun t a => codeGenExpr l t a) (fun t a => codeGenExpr r t a)
      (weight l) (weight r) target a
    let lhsResult := if p.lhsFirst then target else p.t2
    let rhsResult := if p.lhsFirst then p.t2 else target
    let a2 := p.a.fsAddA mDivideByZeroLbl
    let f := freeReg p.t2 a2
    (f.1, p.evs ++
      [Event.ins (Instr.MOV .AL 0 (Operand.reg lhsResult)),
       Event.ins (Instr.MOV .AL 1 (Operand.reg rhsResult)),
       Event.ins (Instr.BL .AL mDivideByZeroLbl),
       Event.ins (Instr.BL .AL "__aeabi_idivmod"),
       Event.ins (Instr.MOV .AL target (Operand.reg 1))] ++ f.2)
  | .add l r =>
    let p := codeGenOrderedF (fun t a => codeGenExpr l t a) (fun t a => codeGenExpr r t a)
      (weight l) (weight r) target a
    let a2 := p.a.fsAddA mOverflowLbl
    let f := freeReg p.t2 a2
    (f.1, p.evs ++ f.2 ++
      [Event.ins (Instr.ADD target p.t2 (Operand.reg target)),
       Event.ins (Instr.BL .VS mOverflowLbl)])
  | .sub l r =>
    let p := codeGenOrderedF (fun t a => codeGenExpr l t a) (fun t a => codeGenExpr r t a)
      (weight l) (weight r) target a
    let subIns :=
      if p.lhsFirst then Instr.SUB target target (Operand.reg p.t2)
      else Instr.SUB target p.t2 (Operand.reg target)
    let a2 := p.a.fsAddA mOverflowLbl
    let f := freeReg p.t2 a2
    (f.1, p.evs ++ f.2 ++
      [Event.ins subIns, Event.ins (Instr.BL .VS mOverflowLbl)])
  | .gt l r =>
    codeGenComparatorsF (fun t a => codeGenExpr l t a) (fun t a => codeGenExpr r t a)
      (weight l) (weight r) target a .GT
  | .ge l r =>
    codeGenComparatorsF (fun t a => codeGenExpr l t a) (fun t a => codeGenExpr r t a)
      (weight l) (weight r) target a .GE
  | .lt l r =>
    codeGenComparatorsF (fun t a => codeGenExpr l t a) (fun t a => codeGenExpr r t a)
      (weight l) (weight r) target a .LT
  | .le l r =>
    codeGenComparatorsF (fun t a => codeGenExpr l t a) (fun t a => codeGenExpr r t a)
      (weight l) (weight r) target a .LE
  | .eq l r =>
    codeGenComparatorsF (fun t a => codeGenExpr l t a) (fun t a => codeGenExpr r t a)
      (weight l) (weight r) target a .EQ
  | .ne l r =>
    codeGenComparatorsF (fun t a => codeGenExpr l t a) (fun t a => codeGenExpr r t a)
      (weight l) (weight r) target a .NE
  | .andE l r =>
    let p := codeGenOrderedF (fun t a => codeGenExpr l t a) (fun t a => codeGenExpr r t a)
      (weight l) (weight r) target a
    let f := freeReg p.t2 p.a
    (f.1, p.evs ++ f.2 ++
      [Event.ins (Instr.AND target p.t2 (Operand.reg target))])
  | .orE l r =>
    let p := codeGenOrderedF (fun t a => codeGenExpr l t a) (fun t a => codeGenExpr r t a)
      (weight l) (weight r) target a
    let f := freeReg p.t2 p.a
    (f.1, p.evs ++ f.2 ++
      [Event.ins (Instr.ORR target p.t2 (Operand.reg target))])
termination_by structural e

/-- The loop body of the shared array helper over the index
expressions. -/
def arrayIdxLoop (exprs : List Expr) (indexReg target : RegId) (a : Alloc) :
    Alloc × List Event :=
  match exprs with
  | [] => (a, [])
  | e :: rest =>
    let p1 := codeGenExpr e indexReg a
    let checks :=
      [Event.ins (Instr.MOV .AL 0 (Operand.reg indexReg)),
       Event.ins (Instr.MOV .AL 1 (Operand.reg target)),
       Event.ins (Instr.BL .AL mArrayBoundLbl),
       Event.ins (Instr.ADD target target (Operand.imm 4)),
       Event.ins (Instr.ADD target target (Operand.lslReg indexReg 2))]
    let p2 := arrayIdxLoop rest indexReg target p1.1
    (p2.1, Event.ins (Instr.LDR .AL target (LoadOperand.regOff target 0)) :: p1.2 ++ checks ++ p2.2)
termination_by structural exprs

end

/-- The shared helper of array access and array left-hand sides
(src/codegen.go lines 702-731): load the variable address, then for each
index dereference, evaluate the index, bounds-check, step past the
length word and offset by the index shifted left by two; the index
register is freed at the end.  The array element expression case of
codeGenExpr inlines this body, as the recursion structure requires. -/
def arrayHelper (ident : String) (exprs : List Expr) (target : RegId) (a : Alloc) :
    Alloc × List Event :=
  let e0 := Event.ins (Instr.ADD target spReg (Operand.imm (resolveVar ident a)))
  let g := getReg a
  let p := arrayIdxLoop exprs g.1 target g.2.1
  let f := freeReg g.1 p.1
  (f.1, e0 :: g.2.2 ++ p.2 ++ f.2)

/-- The array element case of the expression lowering is the shared
array helper followed by the final load. -/
theorem codeGenExpr_arrayElem (ident : String) (indexes : List Expr) (ty : Ty)
    (target : RegId) (a : Alloc) :
    codeGenExpr (.arrayElem ident indexes ty) target a =
      ((arrayHelper ident indexes target a).1,
        (arrayHelper ident indexes target a).2 ++
          [Event.ins (Instr.LDR .AL target (LoadOperand.regOff target 0))]) := rfl

/-!
Statement code generation (src/codegen.go lines 359-688) and the left
and right hand side lowerings (lines 690-861).
-/

/-- The print dispatch table of the print helper function
(src/codegen.go lines 530-560): the runtime helper label for a static
type, none for the panic default. -/
def printLabelOf : Ty → Option String
  | .intT => some mPrintIntLabel
  | .boolT => some mPrintBoolLabel
  | .charT => some mPrintCharLabel
  | .pairT => some mPrintReferenceLabel
  | .arrayT .charT => some mPrintStringLabel
  | .arrayT _ => some mPrintReferenceLabel
  | .invalidT => none

/-- The read dispatch of ReadStatement.CodeGen: int and char have read
helpers, anything else panics in the source. -/
def readLabelOf : Ty → Option String
  | .intT => some mReadIntLabel
  | .charT => some mReadCharLabel
  | _ => none

/-- The print helper function (src/codegen.go lines 530-560): evaluate
into a fresh register, move to r0, free the register, then register and
call the helper selected by the static type. -/
def codeGenPrint (e : Expr) (a : Alloc) : Alloc × List Event :=
  let g := getReg a
  let p := codeGenExpr e g.1 g.2.1
  let mov := Event.ins (Instr.MOV .AL 0 (Operand.reg g.1))
  let f := freeReg g.1 p.1
  match printLabelOf (exprType e) with
  | some lbl =>
    (f.1.fsAddA lbl, g.2.2 ++ p.2 ++ [mov] ++ f.2 ++ [Event.ins (Instr.BL .AL lbl)])
  | none =>
    ({ f.1 with panicked := true }, g.2.2 ++ p.2 ++ [mov] ++ f.2)

/-- The pairElem helper (src/codegen.go lines 800-806): evaluate the
pair expression into the target, then null-check it through r0. -/
def pairElemGen (expr : Expr) (target : RegId) (a : Alloc) : Alloc × List Event :=
  let p := codeGenExpr expr target a
  (p.1, p.2 ++ [Event.ins (Instr.MOV .AL 0 (Operand.reg target)),
    Event.ins (Instr.BL .AL mNullReferenceLbl)])

/-- CodeGen of assignment left hand sides. -/
def codeGenLHS (lhs : LHS) (target : RegId) (a : Alloc) : Alloc × List Event :=
  match lhs with
  | .pairElemLHS snd expr _ =>
    let p := pairElemGen expr target a
    (p.1, p.2 ++ (if snd then [Event.ins (Instr.ADD target target (Operand.imm 4))] else []))
  | .arrayLHS ident index _ => arrayHelper ident index target a
  | .varLHS ident _ =>
    (a, [Event.ins (Instr.MOV .AL target (Operand.reg spReg)),
      Event.ins (Instr.ADD target target (Operand.imm (resolveVar ident a)))])

/-- The element loop of ArrayLiterRHS.CodeGen, with pos starting at 1. -/
def arrayLiterLoop (elements : List Expr) (pos : Nat) (arrayReg target : RegId)
    (a : Alloc) : Alloc × List Event :=
  match elements with
  | [] => (a, [])
  | e :: rest =>
    let p := codeGenExpr e arrayReg a
    let str := Event.ins (Instr.STR arrayReg (StoreOperand.regOffS target (Int.ofNat (pos * 4))))
    let p2 := arrayLiterLoop rest (pos + 1) arrayReg target p.1
    (p2.1, p.2 ++ [str] ++ p2.2)

/-- The argument loop of FunctionCallRHS.CodeGen.  The Go loop walks the
argument array from the last index down to 0; the model receives the
reversed argument list and walks it front first, which performs the same
iterations in the same order. -/
def callArgsRevLoop (revArgs : List Expr) (a : Alloc) : Alloc × List Event :=
  match revArgs with
  | [] => (a, [])
  | e :: rest =>
    let g := getReg a
    let p := codeGenExpr e g.1 g.2.1
    let push := Event.ins (Instr.PUSH [g.1])
    let f := freeReg g.1 (p.1.pushStack 4)
    let p2 := callArgsRevLoop rest f.1
    (p2.1, g.2.2 ++ p.2 ++ [push] ++ f.2 ++ p2.2)

/-- CodeGen of assignment right hand sides. -/
def codeGenRHS (rhs : RHS) (target : RegId) (a : Alloc) : Alloc × List Event :=
  match rhs with
  | .pairLiterRHS fstE sndE =>
    let pre := [Event.ins (Instr.LDR .AL 0 (LoadOperand.constL 8)),
      Event.ins (Instr.BL .AL mMalloc),
      Event.ins (Instr.MOV .AL target (Operand.reg 0))]
    let g := getReg a
    let p1 := codeGenExpr fstE g.1 g.2.1
    let s1 := Event.ins (Instr.STR g.1 (StoreOperand.regS target))
    let p2 := codeGenExpr sndE g.1 p1.1
    let s2 := Event.ins (Instr.STR g.1 (StoreOperand.regOffS target 4))
    let f := freeReg g.1 p2.1
    (f.1, pre ++ g.2.2 ++ p1.2 ++ [s1] ++ p2.2 ++ [s2] ++ f.2)
  | .arrayLiterRHS elements =>
    let n := elements.length
    let pre := [Event.ins (Instr.LDR .AL 0 (LoadOperand.constL (Int.ofNat (n * 4 + 4)))),
      Event.ins (Instr.BL .AL mMalloc),
      Event.ins (Instr.MOV .AL target (Operand.reg 0))]
    let g := getReg a
    let p := arrayLiterLoop elements 1 g.1 target g.2.1
    let f := freeReg g.1 p.1
    (f.1, pre ++ g.2.2 ++ p.2 ++ f.2 ++
      [Event.ins (Instr.LDR .AL g.1 (LoadOperand.constL (Int.ofNat n))),
       Event.ins (Instr.STR g.1 (StoreOperand.regS target))])
  | .pairElemRHS snd expr =>
    let p := pairElemGen expr target a
    (p.1, p.2 ++ [Event.ins (Instr.LDR .AL target
      (LoadOperand.regOff target (if snd then 4 else 0)))])
  | .functionCallRHS ident args =>
    let p := callArgsRevLoop args.reverse a
    let pops := (List.range (min 4 args.length)).map (fun i => Event.ins (Instr.POP [i]))
    let tailEv := [Event.ins (Instr.BL .AL ident),
      Event.ins (Instr.MOV .AL target (Operand.reg 0))] ++
      (if 4 < args.length then
        [Event.ins (Instr.ADD spReg spReg (Operand.imm (Int.ofNat ((args.length - 4) * 4))))]
      else [])
    (p.1.popStack (Int.ofNat (args.length * 4)), p.2 ++ pops ++ tailEv)
  | .expressionRHS expr => codeGenExpr expr target a

/-- CodeGen of statements.  Every case lowers its own node and then the
rest of the chain, as the Go BaseStatement.CodeGen does.  FreeStatement
mirrors the source exactly: it obtains a register and never frees it. -/
def codeGenStmt (s : Stmt) (a : Alloc) : Alloc × List Event :=
  match s with
  | .nilS => (a, [])
  | .skipS next => codeGenStmt next a
  | .blockS body next =>
    let su := getUniqueLabelSuffix a
    let p := codeGenStmt body (startScope su.2)
    let c := cleanupScope p.1
    let pn := codeGenStmt next c.1
    (pn.1, [Event.ins (Instr.LABEL ("block" ++ su.1))] ++ p.2 ++ c.2 ++
      [Event.ins (Instr.LABEL ("block_end" ++ su.1))] ++ pn.2)
  | .declareS ident rhs next =>
    let d := declareVar ident a
    let g := getReg d.1
    let p := codeGenRHS rhs g.1 g.2.1
    let str := Event.ins (Instr.STR g.1 (StoreOperand.memOff (resolveVar ident p.1)))
    let f := freeReg g.1 p.1
    let pn := codeGenStmt next f.1
    (pn.1, d.2 ++ g.2.2 ++ p.2 ++ [str] ++ f.2 ++ pn.2)
  | .assignS target rhs next =>
    let g1 := getReg a
    let p1 := codeGenLHS target g1.1 g1.2.1
    let g2 := getReg p1.1
    let p2 := codeGenRHS rhs g2.1 g2.2.1
    let str := Event.ins (Instr.STR g2.1 (StoreOperand.regS g1.1))
    let f2 := freeReg g2.1 p2.1
    let f1 := freeReg g1.1 f2.1
    let pn := codeGenStmt next f1.1
    (pn.1, g1.2.2 ++ p1.2 ++ g2.2.2 ++ p2.2 ++ [str] ++ f2.2 ++ f1.2 ++ pn.2)
  | .readS target next =>
    let g := getReg a
    let p := codeGenLHS target g.1 g.2.1
    let mov := Event.ins (Instr.MOV .AL 0 (Operand.reg g.1))
    match readLabelOf (lhsType target) with
    | some lbl =>
      let a2 := p.1.fsAddA lbl
      let f := freeReg g.1 a2
      let pn := codeGenStmt next f.1
      (pn.1, g.2.2 ++ p.2 ++ [mov, Event.ins (Instr.BL .AL lbl)] ++ f.2 ++ pn.2)
    | none =>
      ({ p.1 with panicked := true }, g.2.2 ++ p.2 ++ [mov])
  | .freeS expr next =>
    let g := getReg a
    let p := codeGenExpr expr g.1 g.2.1
    let evs := [Event.ins (Instr.MOV .AL 0 (Operand.reg g.1)),
      Event.ins (Instr.BL .AL mNullReferenceLbl),
      Event.ins (Instr.MOV .AL 0 (Operand.reg g.1)),
      Event.ins (Instr.BL .AL mFreeLabel)]
    let pn := codeGenStmt next p.1
    (pn.1, g.2.2 ++ p.2 ++ evs ++ pn.2)
  | .returnS expr next =>
    let g := getReg a
    let p := codeGenExpr expr g.1 g.2.1
    let evs := [Event.ins (Instr.MOV .AL 0 (Operand.reg g.1)),
      Event.ins (Instr.ADD spReg spReg (Operand.imm p.1.stackSize)),
      Event.ins (Instr.B .AL (p.1.fname ++ "_return"))]
    let f := freeReg g.1 p.1
    let pn := codeGenStmt next f.1
    (pn.1, g.2.2 ++ p.2 ++ evs ++ f.2 ++ pn.2)
  | .exitS expr next =>
    let g := getReg a
    let p := codeGenExpr expr g.1 g.2.1
    let evs := [Event.ins (Instr.MOV .AL 0 (Operand.reg g.1)),
      Event.ins (Instr.BL .AL mExitLabel)]
    let f := freeReg g.1 p.1
    let pn := codeGenStmt next f.1
    (pn.1, g.2.2 ++ p.2 ++ evs ++ f.2 ++ pn.2)
  | .printlnS expr next =>
    let p := codeGenPrint expr a
    let pn := codeGenStmt next p.1
    (pn.1, p.2 ++ [Event.ins (Instr.BL .AL mPrintNewLineLabel)] ++ pn.2)
  | .printS expr next =>
    let p := codeGenPrint expr a
    let pn := codeGenStmt next p.1
    (pn.1, p.2 ++ pn.2)
  | .ifS cond tS fS next =>
    let su := getUniqueLabelSuffix a
    let g := getReg su.2
    let p := codeGenExpr cond g.1 g.2.1
    let cmp := Event.ins (Instr.CMP g.1 (Operand.imm 0))
    let f := freeReg g.1 p.1
    let pt := codeGenStmt tS (startScope f.1)
    let c1 := cleanupScope pt.1
    let pf := codeGenStmt fS (startScope c1.1)
    let c2 := cleanupScope pf.1
    let pn := codeGenStmt next c2.1
    (pn.1,
      [Event.ins (Instr.LABEL ("if" ++ su.1))] ++ g.2.2 ++ p.2 ++ [cmp] ++ f.2 ++
      [Event.ins (Instr.B .EQ ("else" ++ su.1)),
       Event.ins (Instr.LABEL ("then" ++ su.1))] ++ pt.2 ++ c1.2 ++
      [Event.ins (Instr.B .AL ("end" ++ su.1)),
       Event.ins (Instr.LABEL ("else" ++ su.1))] ++ pf.2 ++ c2.2 ++
      [Event.ins (Instr.LABEL ("end" ++ su.1))] ++ pn.2)
  | .whileS cond body next =>
    let su := getUniqueLabelSuffix a
    let pb := codeGenStmt body (startScope su.2)
    let c := cleanupScope pb.1
    let g := getReg c.1
    let p := codeGenExpr cond g.1 g.2.1
    let f := freeReg g.1 p.1
    let pn := codeGenStmt next f.1
    (pn.1,
      [Event.ins (Instr.LABEL ("while" ++ su.1)),
       Event.ins (Instr.B .AL ("cond" ++ su.1)),
       Event.ins (Instr.LABEL ("do" ++ su.1))] ++ pb.2 ++ c.2 ++
      [Event.ins (Instr.LABEL ("cond" ++ su.1))] ++ g.2.2 ++ p.2 ++ f.2 ++
      [Event.ins (Instr.CMP g.1 (Operand.imm 1)),
       Event.ins (Instr.B .EQ ("do" ++ su.1)),
       Event.ins (Instr.LABEL ("end" ++ su.1))] ++ pn.2)

/-!
The built-in runtime helper generators (src/codegen.go lines 1433-1841)
and the program driver (lines 1847-2040).
-/

def printNewLine (a : Alloc) : Alloc × List Event :=
  let m := a.lookup8A mNewLine.toList
  (m.2, [Event.ins (Instr.LABEL mPrintNewLineLabel),
    Event.ins (Instr.PUSH [lrReg]),
    Event.ins (Instr.LDR .AL 0 (LoadOperand.lbl m.1)),
    Event.ins (Instr.ADD 0 0 (Operand.imm 4)),
    Event.ins (Instr.BL .AL mPrintf),
    Event.ins (Instr.MOV .AL 0 (Operand.imm 0)),
    Event.ins (Instr.BL .AL mFFlush),
    Event.ins (Instr.POP [pcReg])])

def printString (a : Alloc) : Alloc × List Event :=
  (a, [Event.ins (Instr.LABEL mPrintStringLabel),
    Event.ins (Instr.PUSH [lrReg]),
    Event.ins (Instr.PUSH [4, 5]),
    Event.ins (Instr.LDR .AL 4 (LoadOperand.regOff 0 0)),
    Event.ins (Instr.ADD 5 0 (Operand.imm 4)),
    Event.ins (Instr.LABEL mPrintStringLoopLabel),
    Event.ins (Instr.TEQ 4 (Operand.imm 0)),
    Event.ins (Instr.B .EQ mPrintStringEndLabel),
    Event.ins (Instr.LDR .AL 0 (LoadOperand.regOff 5 0)),
    Event.ins (Instr.BL .AL mPutChar),
    Event.ins (Instr.SUB 4 4 (Operand.imm 1)),
    Event.ins (Instr.ADD 5 5 (Operand.imm 4)),
    Event.ins (Instr.B .AL mPrintStringLoopLabel),
    Event.ins (Instr.LABEL mPrintStringEndLabel),
    Event.ins (Instr.MOV .AL 0 (Operand.imm 0)),
    Event.ins (Instr.BL .AL mFFlush),
    Event.ins (Instr.POP [4, 5]),
    Event.ins (Instr.POP [pcReg])])

def printInt (a : Alloc) : Alloc × List Event :=
  let m := a.lookup8A mPrintInt.toList
  (m.2, [Event.ins (Instr.LABEL mPrintIntLabel),
    Event.ins (Instr.PUSH [lrReg]),
    Event.ins (Instr.MOV .AL 1 (Operand.reg 0)),
    Event.ins (Instr.LDR .AL 0 (LoadOperand.lbl m.1)),
    Event.ins (Instr.ADD 0 0 (Operand.imm 4)),
    Event.ins (Instr.BL .AL mPrintf),
    Event.ins (Instr.MOV .AL 0 (Operand.imm 0)),
    Event.ins (Instr.BL .AL mFFlush),
    Event.ins (Instr.POP [pcReg])])

def printChar (a : Alloc) : Alloc × List Event :=
  (a, [Event.ins (Instr.LABEL mPrintCharLabel),
    Event.ins (Instr.PUSH [lrReg]),
    Event.ins (Instr.BL .AL mPutChar),
    Event.ins (Instr.POP [pcReg])])

def printBool (a : Alloc) : Alloc × List Event :=
  let m0 := a.lookup8A mTrue.toList
  let m1 := m0.2.lookup8A mFalse.toList
  (m1.2, [Event.ins (Instr.LABEL mPrintBoolLabel),
    Event.ins (Instr.PUSH [lrReg]),
    Event.ins (Instr.CMP 0 (Operand.imm 0)),
    Event.ins (Instr.LDR .NE 0 (LoadOperand.lbl m0.1)),
    Event.ins (Instr.LDR .EQ 0 (LoadOperand.lbl m1.1)),
    Event.ins (Instr.ADD 0 0 (Operand.imm 4)),
    Event.ins (Instr.BL .AL mPrintf),
    Event.ins (Instr.MOV .AL 0 (Operand.imm 0)),
    Event.ins (Instr.BL .AL mFFlush),
    Event.ins (Instr.POP [pcReg])])

def printReference (a : Alloc) : Alloc × List Event :=
  let m := a.lookup8A mPrintReference.toList
  (m.2, [Event.ins (Instr.LABEL mPrintReferenceLabel),
    Event.ins (Instr.PUSH [lrReg]),
    Event.ins (Instr.MOV .AL 1 (Operand.reg 0)),
    Event.ins (Instr.LDR .AL 0 (LoadOperand.lbl m.1)),
    Event.ins (Instr.ADD 0 0 (Operand.imm 4)),
    Event.ins (Instr.BL .AL mPrintf),
    Event.ins (Instr.MOV .AL 0 (Operand.imm 0)),
    Event.ins (Instr.BL .AL mFFlush),
    Event.ins (Instr.POP [pcReg])])

def readInt (a : Alloc) : Alloc × List Event :=
  let m := a.lookup8A mPrintInt.toList
  (m.2, [Event.ins (Instr.LABEL mReadIntLabel),
    Event.ins (Instr.PUSH [lrReg]),
    Event.ins (Instr.MOV .AL 1 (Operand.reg 0)),
    Event.ins (Instr.LDR .AL 0 (LoadOperand.lbl m.1)),
    Event.ins (Instr.ADD 0 0 (Operand.imm 4)),
    Event.ins (Instr.BL .AL mScanf),
    Event.ins (Instr.POP [pcReg])])

def readChar (a : Alloc) : Alloc × List Event :=
  let m := a.lookup8A mReadChar.toList
  (m.2, [Event.ins (Instr.LABEL mReadCharLabel),
    Event.ins (Instr.PUSH [lrReg]),
    Event.ins (Instr.MOV .AL 1 (Operand.reg 0)),
    Event.ins (Instr.LDR .AL 0 (LoadOperand.lbl m.1)),
    Event.ins (Instr.ADD 0 0 (Operand.imm 4)),
    Event.ins (Instr.BL .AL mScanf),
    Event.ins (Instr.POP [pcReg])])

def checkDivideByZero (a : Alloc) : Alloc × List Event :=
  let m := a.lookup8A mDivideByZeroErr.toList
  let a1 := m.2.fsAddA mThrowRuntimeErr
  (a1, [Event.ins (Instr.LABEL mDivideByZeroLbl),
    Event.ins (Instr.PUSH [lrReg]),
    Event.ins (Instr.CMP 1 (Operand.imm 0)),
    Event.ins (Instr.LDR .EQ 0 (LoadOperand.lbl m.1)),
    Event.ins (Instr.BL .EQ mThrowRuntimeErr),
    Event.ins (Instr.POP [pcReg])])

def checkNullPointer (a : Alloc) : Alloc × List Event :=
  let m := a.lookup8A mNullReferenceErr.toList
  let a1 := m.2.fsAddA mThrowRuntimeErr
  (a1, [Event.ins (Instr.LABEL mNullReferenceLbl),
    Event.ins (Instr.PUSH [lrReg]),
    Event.ins (Instr.CMP 0 (Operand.imm 0)),
    Event.ins (Instr.LDR .EQ 0 (LoadOperand.lbl m.1)),
    Event.ins (Instr.BL .EQ mThrowRuntimeErr),
    Event.ins (Instr.POP [pcReg])])

def checkArrayBounds (a : Alloc) : Alloc × List Event :=
  let m0 := a.lookup8A mArrayNegIndexErr.toList
  let m1 := m0.2.lookup8A mArrayLrgIndexErr.toList
  let a1 := m1.2.fsAddA mThrowRuntimeErr
  (a1, [Event.ins (Instr.LABEL mArrayBoundLbl),
    Event.ins (Instr.PUSH [lrReg]),
    Event.ins (Instr.CMP 0 (Operand.imm 0)),
    Event.ins (Instr.LDR .LT 0 (LoadOperand.lbl m0.1)),
    Event.ins (Instr.BL .LT mThrowRuntimeErr),
    Event.ins (Instr.LDR .AL 1 (LoadOperand.regOff 1 0)),
    Event.ins (Instr.CMP 0 (Operand.reg 1)),
    Event.ins (Instr.LDR .CS 0 (LoadOperand.lbl m1.1)),
    Event.ins (Instr.BL .CS mThrowRuntimeErr),
    Event.ins (Instr.POP [pcReg])])

def checkOverflowUnderflow (a : Alloc) : Alloc × List Event :=
  let m := a.lookup8A mOverflowErr.toList
  let a1 := m.2.fsAddA mThrowRuntimeErr
  (a1, [Event.ins (Instr.LABEL mOverflowLbl),
    Event.ins (Instr.LDR .AL 0 (LoadOperand.lbl m.1)),
    Event.ins (Instr.BL .AL mThrowRuntimeErr)])

def throwRuntimeError (a : Alloc) : Alloc × List Event :=
  let m := a.lookup8A mPrintString.toList
  (m.2, [Event.ins (Instr.LABEL mThrowRuntimeErr),
    Event.ins (Instr.LDR .AL 1 (LoadOperand.regOff 0 0)),
    Event.ins (Instr.ADD 2 0 (Operand.imm 4)),
    Event.ins (Instr.LDR .AL 0 (LoadOperand.lbl m.1)),
    Event.ins (Instr.ADD 0 0 (Operand.imm 4)),
    Event.ins (Instr.BL .AL mPrintf),
    Event.ins (Instr.MOV .AL 0 (Operand.imm 0)),
    Event.ins (Instr.BL .AL mFFlush),
    Event.ins (Instr.MOV .AL 0 (Operand.imm (-1))),
    Event.ins (Instr.BL .AL mExitLabel)])

/-- The FSMap table: helper name to generator. -/
def fsMap (name : String) : Option (Alloc → Alloc × List Event) :=
  if name = mPrintIntLabel then some printInt
  else if name = mPrintCharLabel then some printChar
  else if name = mPrintBoolLabel then some printBool
  else if name = mPrintStringLabel then some printString
  else if name = mPrintReferenceLabel then some printReference
  else if name = mPrintNewLineLabel then some printNewLine
  else if name = mReadIntLabel then some readInt
  else if name = mReadCharLabel then some readChar
  else if name = mDivideByZeroLbl then some checkDivideByZero
  else if name = mNullReferenceLbl then some checkNullPointer
  else if name = mArrayBoundLbl then some checkArrayBounds
  else if name = mOverflowLbl then some checkOverflowUnderflow
  else if name = mThrowRuntimeErr then some throwRuntimeError
  else none

/-- The parameter offset writes of FunctionDef.CodeGen (src/codegen.go
lines 1906-1914), applied to the outermost scope in order. -/
def paramScopeFold (sc : Scope) (params : List String) : Scope :=
  (List.range params.length).foldl
    (fun s i =>
      if i < 4 then scopeSet s (params.getD i "") (Int.ofNat i * (-4))
      else scopeSet s (params.getD i "")
        ((-4) + (-4) + Int.ofNat i * (-4) + 8 * (-4)))
    sc

/-- A function definition as code generation sees it. -/
structure FunctionDefM where
  ident : String
  returnType : Ty
  params : List String
  body : Stmt

/-- FunctionDef.CodeGen (src/codegen.go lines 1863-1961): prologue,
parameter spill, body, epilogue.  Returns the event stream and the two
pools as left by the lowering. -/
def codeGenFunction (f : FunctionDefM) (strPool : List DataString) (fsPool : List String) :
    List Event × List DataString × List String :=
  let pl := f.params.length
  let a0 := { createRegAllocator with
    stringPool := strPool, fsPool := fsPool, fname := f.ident }
  let a1 := startScope a0
  let paramPushes : List Event :=
    (if 4 ≤ pl then [Event.ins (Instr.PUSH [3])] else []) ++
    (if 3 ≤ pl then [Event.ins (Instr.PUSH [2])] else []) ++
    (if 2 ≤ pl then [Event.ins (Instr.PUSH [1])] else []) ++
    (if 1 ≤ pl then [Event.ins (Instr.PUSH [0])] else [])
  let a2 := { a1 with stack :=
    match a1.stack with
    | [] => []
    | sc :: rest => paramScopeFold sc f.params :: rest }
  let pb := codeGenStmt f.body (startScope a2)
  let c := cleanupScope pb.1
  let retEv := if f.returnType = Ty.invalidT
    then [Event.ins (Instr.MOV .AL 0 (Operand.imm 0))] else []
  let spFix := if 0 < pl then
      [Event.ins (Instr.ADD spReg spReg (Operand.imm (Int.ofNat (min (pl * 4) 16))))]
    else []
  let evs :=
    [Event.ins (Instr.LABEL f.ident),
     Event.ins (Instr.PUSH [lrReg]),
     Event.ins (Instr.PUSH [ipReg]),
     Event.ins (Instr.PUSH [4, 5, 6, 7, 8, 9, 10, 11])] ++ paramPushes ++
    pb.2 ++ c.2 ++ retEv ++
    [Event.ins (Instr.LABEL (f.ident ++ "_return"))] ++ spFix ++
    [Event.ins (Instr.POP [4, 5, 6, 7, 8, 9, 10, 11]),
     Event.ins (Instr.POP [ipReg]),
     Event.ins (Instr.POP [pcReg]),
     Event.ins Instr.LTORG]
  (evs, c.1.stringPool, c.1.fsPool)

/-- An AST: the declared functions in source order and the main body. -/
structure ASTM where
  functions : List FunctionDefM
  main : Stmt

/-- Sequential lowering of the functions in source order, threading the
shared pools.  The Go driver runs the lowerings concurrently but drains
their channels in source order; the model fixes the schedule in which
each lowering completes before the next starts. -/
def runFuncs : List FunctionDefM → List DataString → List String →
    List Event × List DataString × List String
  | [], strPool, fsPool => ([], strPool, fsPool)
  | f :: rest, strPool, fsPool =>
    let r := codeGenFunction f strPool fsPool
    let r2 := runFuncs rest r.2.1 r.2.2
    (r.1 ++ r2.1, r2.2.1, r2.2.2)

/-- Emission of the requested helpers.  The Go driver ranges over the
helper-pool map, whose iteration order is not fixed; the model takes the
iteration order as an argument.  Names that are not in the generator
table are skipped (the Go code would call a nil function). -/
def runHelpers : List String → List DataString → List String →
    List Event × List DataString × List String
  | [], strPool, fsPool => ([], strPool, fsPool)
  | name :: rest, strPool, fsPool =>
    match fsMap name with
    | some gen =>
      let a0 := { createRegAllocator with stringPool := strPool, fsPool := fsPool }
      let r := gen a0
      let r2 := runHelpers rest r.1.stringPool r.1.fsPool
      (r.2 ++ r2.1, r2.2.1, r2.2.2)
    | none => runHelpers rest strPool fsPool

/-- The .data section: one label, length word and ascii payload per
interned string, in insertion order. -/
def dataInstrsFrom (i : Nat) : List DataString → List Instr
  | [] => []
  | d :: rest =>
    Instr.LABEL ("msg_" ++ toString i) :: Instr.DataWord d.len ::
      Instr.DataAscii d.str :: dataInstrsFrom (i + 1) rest

/-- The synthetic main function the driver builds around the top-level
statement list. -/
def mainFunc (main : Stmt) : FunctionDefM :=
  { ident := "main", returnType := Ty.invalidT, params := [], body := main }

/-- The function event streams of a program, in source order with the
synthetic main last; independent of the helper iteration order. -/
def astFuncRun (ast : ASTM) : List Event × List DataString × List String :=
  runFuncs (ast.functions ++ [mainFunc ast.main]) [] []

/-- AST.CodeGen (src/codegen.go lines 1980-2040): data segment first,
then the buffered text segment with the .text and .global headers, the
function streams and the helper bodies.  The helper iteration order is
the order parameter. -/
def codeGenAST (ast : ASTM) (order : List String) : List Instr :=
  let rf := astFuncRun ast
  let rh := runHelpers order rf.2.1 rf.2.2
  Instr.DataSeg :: dataInstrsFrom 0 rh.2.1 ++
    [Instr.TextSeg, Instr.Global "main"] ++ instrsOf rf.1 ++ instrsOf rh.1

/-- The helper pool as filled by the function lowerings (before helper
emission). -/
def astFsPool (ast : ASTM) : List String := (astFuncRun ast).2.2

/-- The helper pool after helper emission with a given iteration
order. -/
def astFsPoolFinal (ast : ASTM) (order : List String) : List String :=
  (runHelpers order (astFuncRun ast).2.1 (astFuncRun ast).2.2).2.2

/-- A possible Go map range order over the helper pool: visits distinct
names, visits every name present before the loop starts, and visits only
names that are in the pool by the end of the loop. -/
def IsIterOrder (ast : ASTM) (order : List String) : Prop :=
  order.Nodup ∧ astFsPool ast ⊆ order ∧ order ⊆ astFsPoolFinal ast order

/-!
Analysis helpers over instruction streams and event traces.
-/

/-- How often a LABEL with the given ident occurs. -/
def countLABEL (l : List Instr) (s : String) : Nat :=
  (l.filter (fun i => i = Instr.LABEL s)).length

/-- Whether some BL (any condition) references the given label. -/
def hasBL (l : List Instr) (s : String) : Bool :=
  l.any (fun i =>
    match i with
    | Instr.BL _ lbl => lbl = s
    | _ => false)

/-- Whether an instruction writes the given general purpose register. -/
def instrWrites (i : Instr) (r : RegId) : Bool :=
  match i with
  | .MOV _ d _ => d = r
  | .LDR _ d _ => d = r
  | .ADD d _ _ => d = r
  | .SUB d _ _ => d = r
  | .AND d _ _ => d = r
  | .ORR d _ _ => d = r
  | .NOT d _ => d = r
  | .NEG d _ => d = r
  | .SMULL lo hi _ _ => lo = r || hi = r
  | .POP regs => regs.contains r
  | _ => false

/-- Scan after a FreeReg of r: does any emitted instruction write r
before the next GetReg returning r? -/
def writesFreedSeg (r : RegId) : List Event → Bool
  | [] => false
  | .getR r2 :: rest => if r2 = r then false else writesFreedSeg r rest
  | .ins i :: rest => instrWrites i r || writesFreedSeg r rest
  | .freeR _ :: rest => writesFreedSeg r rest

/-- Whether a trace contains a write to a register between FreeReg
taking it back and GetReg handing it out again. -/
def writesAfterFree : List Event → Bool
  | [] => false
  | .freeR r :: rest => writesFreedSeg r rest || writesAfterFree rest
  | _ :: rest => writesAfterFree rest

/-!
Preservation lemmas.  Expression lowerings leave every allocator field
except the two shared pools unchanged; this is the balanced GetReg and
FreeReg discipline of the source.
-/

/-- Preservation of every allocator field except the two pools. -/
def ExprPres (a b : Alloc) : Prop :=
  b.regs = a.regs ∧ b.usage = a.usage ∧ b.stackSize = a.stackSize ∧
  b.stack = a.stack ∧ b.fname = a.fname ∧ b.labelCounter = a.labelCounter ∧
  b.panicked = a.panicked

theorem exprPres_refl (a : Alloc) : ExprPres a a := by
  simp [ExprPres]

theorem exprPres_trans {a b c : Alloc} (h1 : ExprPres a b) (h2 : ExprPres b c) :
    ExprPres a c := by
  obtain ⟨r1, u1, s1, k1, f1, l1, p1⟩ := h1
  obtain ⟨r2, u2, s2, k2, f2, l2, p2⟩ := h2
  exact ⟨r2.trans r1, u2.trans u1, s2.trans s1, k2.trans k1,
    f2.trans f1, l2.trans l1, p2.trans p1⟩

theorem headD_cons_tail {α : Type} {l : List α} (d : α) (h : l ≠ []) :
    l.headD d :: l.tail = l := by
  cases l with
  | nil => exact absurd rfl h
  | cons x xs => rfl

theorem getLastD_append_singleton {α : Type} (l : List α) (b d : α) :
    (l ++ [b]).getLastD d = b := by
  induction l with
  | nil => rfl
  | cons x xs ih =>
    cases xs with
    | nil => rfl
    | cons y ys => simpa using ih

/-- Pool registration does not move any allocator field outside the
pools. -/
theorem fsAddA_pres (n : String) (a : Alloc) : ExprPres a (a.fsAddA n) := by
  simp [ExprPres, Alloc.fsAddA]

theorem lookup32A_pres (s : List Char) (a : Alloc) : ExprPres a (a.lookup32A s).2 := by
  simp [ExprPres, Alloc.lookup32A]

theorem lookup8A_pres (s : List Char) (a : Alloc) : ExprPres a (a.lookup8A s).2 := by
  simp [ExprPres, Alloc.lookup8A]

/-- GetReg looks only at fields that ExprPres tracks, so two states
related by ExprPres produce the same register, the same events, and
ExprPres-related successor states. -/
theorem getReg_congr {a b : Alloc} (h : ExprPres a b) :
    (getReg b).1 = (getReg a).1 ∧ (getReg b).2.2 = (getReg a).2.2 ∧
      ExprPres (getReg a).2.1 (getReg b).2.1 := by
  obtain ⟨hr, hu, hs, hk, hf, hl, hp⟩ := h
  refine ⟨?_, ?_, ?_, ?_, ?_, ?_, ?_, ?_, ?_⟩ <;>
    simp [getReg, hr, hu, hs, hk, hf, hl, hp]

/-- FreeReg at the register GetReg handed out, from any state whose
rotation list and usage are those GetReg produced: the free succeeds,
restores the rotation list and the usage function, emits the POP exactly
when GetReg spilled, and leaves all other fields alone. -/
theorem freeReg_rotated (r : RegId) (rest : List RegId) (a0 b : Alloc)
    (hl : a0.regs = r :: rest)
    (hr : b.regs = rest ++ [r])
    (hu : b.usage = fun x => if x = r then a0.usage r + 1 else a0.usage x) :
    (freeReg r b).1.regs = a0.regs ∧
    (freeReg r b).1.usage = a0.usage ∧
    (freeReg r b).1.stackSize = b.stackSize - (if 0 < a0.usage r then 4 else 0) ∧
    (freeReg r b).1.stack = b.stack ∧
    (freeReg r b).1.fname = b.fname ∧
    (freeReg r b).1.labelCounter = b.labelCounter ∧
    (freeReg r b).1.panicked = b.panicked ∧
    (freeReg r b).1.stringPool = b.stringPool ∧
    (freeReg r b).1.fsPool = b.fsPool ∧
    (freeReg r b).2 =
      (if 0 < a0.usage r then [Event.ins (Instr.POP [r])] else []) ++ [Event.freeR r] := by
  have htail : b.regs.getLastD 0 = r := by
    rw [hr]; exact getLastD_append_singleton _ _ _
  have hne2 : ¬ (r ≠ b.regs.getLastD 0) := by rw [htail]; simp
  have husager : b.usage r = a0.usage r + 1 := by rw [hu]; simp
  have hiff : (1 < b.usage r) = (0 < a0.usage r) := by
    rw [husager]; exact propext (by omega)
  have hregs : r :: b.regs.dropLast = a0.regs := by
    rw [hr, List.dropLast_concat, hl]
  have husage : (fun x => if x = r then b.usage r - 1 else b.usage x) = a0.usage := by
    funext x
    by_cases hx : x = r
    · rw [if_pos hx, husager, hx]; simp
    · rw [if_neg hx, hu]; exact if_neg hx
  unfold freeReg
  rw [if_neg hne2]
  simp [hiff, hregs, husage]

/-- The unfolding equation of getReg. -/
theorem getReg_eq (a : Alloc) :
    getReg a = (a.regs.headD 0,
      { a with
        stackSize := a.stackSize + (if 0 < a.usage (a.regs.headD 0) then 4 else 0)
        usage := fun x => if x = a.regs.headD 0 then a.usage (a.regs.headD 0) + 1 else a.usage x
        regs := a.regs.tail ++ [a.regs.headD 0] },
      (if 0 < a.usage (a.regs.headD 0) then [Event.ins (Instr.PUSH [a.regs.headD 0])] else []) ++
        [Event.getR (a.regs.headD 0)]) := rfl

/-- A GetReg followed, after any ExprPres-preserving work, by the
matching FreeReg restores the allocator state; the FreeReg emits a POP
exactly when the GetReg spilled. -/
theorem getReg_mid_free (a mid : Alloc) (hne : a.regs ≠ [])
    (hmid : ExprPres (getReg a).2.1 mid) :
    ExprPres a (freeReg (getReg a).1 mid).1 ∧
    (freeReg (getReg a).1 mid).2 =
      (if 0 < a.usage (a.regs.headD 0) then [Event.ins (Instr.POP [a.regs.headD 0])] else []) ++
      [Event.freeR (a.regs.headD 0)] := by
  obtain ⟨hr, hu, hs, hk, hf, hl, hp⟩ := hmid
  rw [getReg_eq] at hr hu hs hk hf hl hp
  simp only at hr hu hs hk hf hl hp
  have hcons : a.regs = a.regs.headD 0 :: a.regs.tail := (headD_cons_tail 0 hne).symm
  have h := freeReg_rotated (a.regs.headD 0) a.regs.tail a mid hcons hr hu
  obtain ⟨c1, c2, c3, c4, c5, c6, c7, _, _, c10⟩ := h
  have hfr : (freeReg (getReg a).1 mid) = freeReg (a.regs.headD 0) mid := rfl
  rw [hfr]
  refine ⟨⟨c1, c2, ?_, ?_, ?_, ?_, ?_⟩, c10⟩
  · rw [c3, hs]; omega
  · rw [c4, hk]
  · rw [c5, hf]
  · rw [c6, hl]
  · rw [c7, hp]

theorem append_singleton_ne_nil {α : Type} (l : List α) (x : α) : l ++ [x] ≠ [] := by
  simp

/-- After the binary operator prelude: when both operand lowerings
preserve the allocator state, the second register is the head of the
entry rotation list and the resulting state is the GetReg successor of
the entry state, up to the pools. -/
theorem codeGenOrderedF_post (genL genR : RegId → Alloc → Alloc × List Event)
    (wl wr : Int) (t : RegId) (a : Alloc) (hne : a.regs ≠ [])
    (hl : ∀ t2 a2, a2.regs ≠ [] → ExprPres a2 (genL t2 a2).1)
    (hr : ∀ t2 a2, a2.regs ≠ [] → ExprPres a2 (genR t2 a2).1) :
    (codeGenOrderedF genL genR wl wr t a).t2 = (getReg a).1 ∧
    ExprPres (getReg a).2.1 (codeGenOrderedF genL genR wl wr t a).a := by
  by_cases hw : wl > wr
  · have h1 := hl t a hne
    have hg := getReg_congr h1
    have hne2 : (getReg (genL t a).1).2.1.regs ≠ [] := by
      rw [getReg_eq]
      exact append_singleton_ne_nil _ _
    have h2 := hr (getReg (genL t a).1).1 (getReg (genL t a).1).2.1 hne2
    simp only [codeGenOrderedF, if_pos hw]
    exact ⟨hg.1, exprPres_trans hg.2.2 h2⟩
  · have h1 := hr t a hne
    have hg := getReg_congr h1
    have hne2 : (getReg (genR t a).1).2.1.regs ≠ [] := by
      rw [getReg_eq]
      exact append_singleton_ne_nil _ _
    have h2 := hl (getReg (genR t a).1).1 (getReg (genR t a).1).2.1 hne2
    simp only [codeGenOrderedF, if_neg hw]
    exact ⟨hg.1, exprPres_trans hg.2.2 h2⟩

/-- Comparator lowering preserves the allocator state outside the pools
whenever the operand lowerings do. -/
theorem codeGenComparatorsF_pres (genL genR : RegId → Alloc → Alloc × List Event)
    (wl wr : Int) (t : RegId) (a : Alloc) (cond : Cond) (hne : a.regs ≠ [])
    (hl : ∀ t2 a2, a2.regs ≠ [] → ExprPres a2 (genL t2 a2).1)
    (hr : ∀ t2 a2, a2.regs ≠ [] → ExprPres a2 (genR t2 a2).1) :
    ExprPres a (codeGenComparatorsF genL genR wl wr t a cond).1 := by
  have hp := codeGenOrderedF_post genL genR wl wr t a hne hl hr
  have h := (getReg_mid_free a _ hne hp.2).1
  simp only [codeGenComparatorsF]
  rw [hp.1]
  exact h

mutual

/-- Lowering an expression preserves the rotation list, the usage
counters, the stack size, the scope stack and the label counter: every
GetReg is matched by a FreeReg in LIFO order. -/
theorem codeGenExpr_pres (e : Expr) (t : RegId) (a : Alloc) (hne : a.regs ≠ []) :
    ExprPres a (codeGenExpr e t a).1 := by
  match e with
  | .identE ident ty => simp only [codeGenExpr]; exact exprPres_refl a
  | .intLit n => simp only [codeGenExpr]; exact exprPres_refl a
  | .boolLitTrue => simp only [codeGenExpr]; exact exprPres_refl a
  | .boolLitFalse => simp only [codeGenExpr]; exact exprPres_refl a
  | .charLit c => simp only [codeGenExpr]; exact exprPres_refl a
  | .strLit s =>
    simp only [codeGenExpr]
    exact lookup32A_pres s a
  | .nullPair => simp only [codeGenExpr]; exact exprPres_refl a
  | .arrayElem ident indexes ty =>
    simp only [codeGenExpr]
    exact arrayHelper_pres ident indexes t a hne
  | .notE e1 =>
    simp only [codeGenExpr]
    exact codeGenExpr_pres e1 t a hne
  | .negE e1 =>
    simp only [codeGenExpr]
    exact codeGenExpr_pres e1 t a hne
  | .lenE e1 =>
    simp only [codeGenExpr]
    exact codeGenExpr_pres e1 t a hne
  | .ordE e1 =>
    simp only [codeGenExpr]
    exact codeGenExpr_pres e1 t a hne
  | .chrE e1 =>
    simp only [codeGenExpr]
    exact codeGenExpr_pres e1 t a hne
  | .mult l r =>
    have hp := codeGenOrderedF_post (fun t a => codeGenExpr l t a)
      (fun t a => codeGenExpr r t a) (weight l) (weight r) t a hne
      (fun t2 a2 h2 => codeGenExpr_pres l t2 a2 h2)
      (fun t2 a2 h2 => codeGenExpr_pres r t2 a2 h2)
    have hmid := exprPres_trans hp.2 (fsAddA_pres mOverflowLbl _)
    have h := (getReg_mid_free a _ hne hmid).1
    simp only [codeGenExpr]
    rw [hp.1]
    exact h
  | .divE l r =>
    have hp := codeGenOrderedF_post (fun t a => codeGenExpr l t a)
      (fun t a => codeGenExpr r t a) (weight l) (weight r) t a hne
      (fun t2 a2 h2 => codeGenExpr_pres l t2 a2 h2)
      (fun t2 a2 h2 => codeGenExpr_pres r t2 a2 h2)
    have hmid := exprPres_trans hp.2 (fsAddA_pres mDivideByZeroLbl _)
    have h := (getReg_mid_free a _ hne hmid).1
    simp only [codeGenExpr]
    rw [hp.1]
    exact h
  | .modE l r =>
    have hp := codeGenOrderedF_post (fun t a => codeGenExpr l t a)
      (fun t a => codeGenExpr r t a) (weight l) (weight r) t a hne
      (fun t2 a2 h2 => codeGenExpr_pres l t2 a2 h2)
      (fun t2 a2 h2 => codeGenExpr_pres r t2 a2 h2)
    have hmid := exprPres_trans hp.2 (fsAddA_pres mDivideByZeroLbl _)
    have h := (getReg_mid_free a _ hne hmid).1
    simp only [codeGenExpr]
    rw [hp.1]
    exact h
  | .add l r =>
    have hp := codeGenOrderedF_post (fun t a => codeGenExpr l t a)
      (fun t a => codeGenExpr r t a) (weight l) (weight r) t a hne
      (fun t2 a2 h2 => codeGenExpr_pres l t2 a2 h2)
      (fun t2 a2 h2 => codeGenExpr_pres r t2 a2 h2)
    have hmid := exprPres_trans hp.2 (fsAddA_pres mOverflowLbl _)
    have h := (getReg_mid_free a _ hne hmid).1
    simp only [codeGenExpr]
    rw [hp.1]
    exact h
  | .sub l r =>
    have hp := codeGenOrderedF_post (fun t a => codeGenExpr l t a)
      (fun t a => codeGenExpr r t a) (weight l) (weight r) t a hne
      (fun t2 a2 h2 => codeGenExpr_pres l t2 a2 h2)
      (fun t2 a2 h2 => codeGenExpr_pres r t2 a2 h2)
    have hmid := exprPres_trans hp.2 (fsAddA_pres mOverflowLbl _)
    have h := (getReg_mid_free a _ hne hmid).1
    simp only [codeGenExpr]
    rw [hp.1]
    exact h
  | .gt l r =>
    simp only [codeGenExpr]
    exact codeGenComparatorsF_pres (fun t a => codeGenExpr l t a)
      (fun t a => codeGenExpr r t a) (weight l) (weight r) t a .GT hne
      (fun t2 a2 h2 => codeGenExpr_pres l t2 a2 h2)
      (fun t2 a2 h2 => codeGenExpr_pres r t2 a2 h2)
  | .ge l r =>
    simp only [codeGenExpr]
    exact codeGenComparatorsF_pres (fun t a => codeGenExpr l t a)
      (fun t a => codeGenExpr r t a) (weight l) (weight r) t a .GE hne
      (fun t2 a2 h2 => codeGenExpr_pres l t2 a2 h2)
      (fun t2 a2 h2 => codeGenExpr_pres r t2 a2 h2)
  | .lt l r =>
    simp only [codeGenExpr]
    exact codeGenComparatorsF_pres (fun t a => codeGenExpr l t a)
      (fun t a => codeGenExpr r t a) (weight l) (weight r) t a .LT hne
      (fun t2 a2 h2 => codeGenExpr_pres l t2 a2 h2)
      (fun t2 a2 h2 => codeGenExpr_pres r t2 a2 h2)
  | .le l r =>
    simp only [codeGenExpr]
    exact codeGenComparatorsF_pres (fun t a => codeGenExpr l t a)
      (fun t a => codeGenExpr r t a) (weight l) (weight r) t a .LE hne
      (fun t2 a2 h2 => codeGenExpr_pres l t2 a2 h2)
      (fun t2 a2 h2 => codeGenExpr_pres r t2 a2 h2)
  | .eq l r =>
    simp only [codeGenExpr]
    exact codeGenComparatorsF_pres (fun t a => codeGenExpr l t a)
      (fun t a => codeGenExpr r t a) (weight l) (weight r) t a .EQ hne
      (fun t2 a2 h2 => codeGenExpr_pres l t2 a2 h2)
      (fun t2 a2 h2 => codeGenExpr_pres r t2 a2 h2)
  | .ne l r =>
    simp only [codeGenExpr]
    exact codeGenComparatorsF_pres (fun t a => codeGenExpr l t a)
      (fun t a => codeGenExpr r t a) (weight l) (weight r) t a .NE hne
      (fun t2 a2 h2 => codeGenExpr_pres l t2 a2 h2)
      (fun t2 a2 h2 => codeGenExpr_pres r t2 a2 h2)
  | .andE l r =>
    have hp := codeGenOrderedF_post (fun t a => codeGenExpr l t a)
      (fun t a => codeGenExpr r t a) (weight l) (weight r) t a hne
      (fun t2 a2 h2 => codeGenExpr_pres l t2 a2 h2)
      (fun t2 a2 h2 => codeGenExpr_pres r t2 a2 h2)
    have h := (getReg_mid_free a _ hne hp.2).1
    simp only [codeGenExpr]
    rw [hp.1]
    exact h
  | .orE l r =>
    have hp := codeGenOrderedF_post (fun t a => codeGenExpr l t a)
      (fun t a => codeGenExpr r t a) (weight l) (weight r) t a hne
      (fun t2 a2 h2 => codeGenExpr_pres l t2 a2 h2)
      (fun t2 a2 h2 => codeGenExpr_pres r t2 a2 h2)
    have h := (getReg_mid_free a _ hne hp.2).1
    simp only [codeGenExpr]
    rw [hp.1]
    exact h
termination_by 3 * sizeOf e

/-- The array helper preserves the allocator state outside the pools. -/
theorem arrayHelper_pres (ident : String) (exprs : List Expr) (t : RegId) (a : Alloc)
    (hne : a.regs ≠ []) :
    ExprPres a (arrayHelper ident exprs t a).1 := by
  have hne2 : (getReg a).2.1.regs ≠ [] := by
    rw [getReg_eq]
    exact append_singleton_ne_nil _ _
  have hp := arrayIdxLoop_pres exprs (getReg a).1 t (getReg a).2.1 hne2
  have h := (getReg_mid_free a _ hne hp).1
  simp only [arrayHelper]
  exact h
termination_by 3 * sizeOf exprs + 1

/-- The index loop of the array helper preserves the allocator state
outside the pools. -/
theorem arrayIdxLoop_pres (exprs : List Expr) (ir tg : RegId) (a : Alloc)
    (hne : a.regs ≠ []) :
    ExprPres a (arrayIdxLoop exprs ir tg a).1 := by
  match exprs with
  | [] => simp only [arrayIdxLoop]; exact exprPres_refl a
  | e :: rest =>
    have h1 := codeGenExpr_pres e ir a hne
    have hne2 : (codeGenExpr e ir a).1.regs ≠ [] := by
      rw [h1.1]; exact hne
    have h2 := arrayIdxLoop_pres rest ir tg (codeGenExpr e ir a).1 hne2
    simp only [arrayIdxLoop]
    exact exprPres_trans h1 h2
termination_by 3 * sizeOf exprs

end

/-!
Preservation at the right-hand-side, left-hand-side and statement level.
-/

theorem pairElemGen_pres (e : Expr) (t : RegId) (a : Alloc) (hne : a.regs ≠ []) :
    ExprPres a (pairElemGen e t a).1 := by
  simp only [pairElemGen]
  exact codeGenExpr_pres e t a hne

theorem codeGenLHS_pres (lhs : LHS) (t : RegId) (a : Alloc) (hne : a.regs ≠ []) :
    ExprPres a (codeGenLHS lhs t a).1 := by
  match lhs with
  | .pairElemLHS snd e ty =>
    simp only [codeGenLHS]
    exact pairElemGen_pres e t a hne
  | .arrayLHS ident index ty =>
    simp only [codeGenLHS]
    exact arrayHelper_pres ident index t a hne
  | .varLHS ident ty =>
    simp only [codeGenLHS]
    exact exprPres_refl a

theorem arrayLiterLoop_pres (elements : List Expr) (pos : Nat) (ar tg : RegId)
    (a : Alloc) (hne : a.regs ≠ []) :
    ExprPres a (arrayLiterLoop elements pos ar tg a).1 := by
  induction elements generalizing pos a with
  | nil => simp only [arrayLiterLoop]; exact exprPres_refl a
  | cons e rest ih =>
    have h1 := codeGenExpr_pres e ar a hne
    have hne2 : (codeGenExpr e ar a).1.regs ≠ [] := by rw [h1.1]; exact hne
    have h2 := ih (pos + 1) (codeGenExpr e ar a).1 hne2
    simp only [arrayLiterLoop]
    exact exprPres_trans h1 h2

/-- The RU version of the GetReg and FreeReg roundtrip: the intermediate
state only needs the rotation list and usage that GetReg produced; all
its other fields pass through FreeReg, minus the spill debit. -/
theorem getReg_mid_freeRU (a mid : Alloc) (hne : a.regs ≠ [])
    (hr : mid.regs = (getReg a).2.1.regs) (hu : mid.usage = (getReg a).2.1.usage) :
    (freeReg (getReg a).1 mid).1.regs = a.regs ∧
    (freeReg (getReg a).1 mid).1.usage = a.usage ∧
    (freeReg (getReg a).1 mid).1.stackSize =
      mid.stackSize - (if 0 < a.usage (a.regs.headD 0) then 4 else 0) ∧
    (freeReg (getReg a).1 mid).1.stack = mid.stack ∧
    (freeReg (getReg a).1 mid).1.fname = mid.fname ∧
    (freeReg (getReg a).1 mid).1.labelCounter = mid.labelCounter ∧
    (freeReg (getReg a).1 mid).1.panicked = mid.panicked ∧
    (freeReg (getReg a).1 mid).1.stringPool = mid.stringPool ∧
    (freeReg (getReg a).1 mid).1.fsPool = mid.fsPool ∧
    (freeReg (getReg a).1 mid).2 =
      (if 0 < a.usage (a.regs.headD 0) then [Event.ins (Instr.POP [a.regs.headD 0])] else []) ++
      [Event.freeR (a.regs.headD 0)] := by
  rw [getReg_eq] at hr hu
  simp only at hr hu
  have hcons : a.regs = a.regs.headD 0 :: a.regs.tail := (headD_cons_tail 0 hne).symm
  exact freeReg_rotated (a.regs.headD 0) a.regs.tail a mid hcons hr hu

/-- Rotation list and usage preservation only. -/
def RU (a b : Alloc) : Prop := b.regs = a.regs ∧ b.usage = a.usage

theorem ru_refl (a : Alloc) : RU a a := ⟨rfl, rfl⟩

theorem ru_trans {a b c : Alloc} (h1 : RU a b) (h2 : RU b c) : RU a c :=
  ⟨h2.1.trans h1.1, h2.2.trans h1.2⟩

theorem exprPres_ru {a b : Alloc} (h : ExprPres a b) : RU a b := ⟨h.1, h.2.1⟩

theorem getReg_congrRU {a b : Alloc} (h : RU a b) :
    (getReg b).1 = (getReg a).1 ∧ RU (getReg a).2.1 (getReg b).2.1 := by
  obtain ⟨hr, hu⟩ := h
  refine ⟨?_, ?_, ?_⟩ <;> simp [getReg, hr, hu]

/-- The argument loop of a function call: the rotation list and usage
return to their entry values and the tracked stack size grows by four
bytes per argument, matching the PUSH per argument. -/
theorem callArgsRevLoop_state (revArgs : List Expr) (a : Alloc) (hne : a.regs ≠ []) :
    (callArgsRevLoop revArgs a).1.regs = a.regs ∧
    (callArgsRevLoop revArgs a).1.usage = a.usage ∧
    (callArgsRevLoop revArgs a).1.stackSize =
      a.stackSize + 4 * Int.ofNat revArgs.length ∧
    (callArgsRevLoop revArgs a).1.stack = a.stack ∧
    (callArgsRevLoop revArgs a).1.fname = a.fname ∧
    (callArgsRevLoop revArgs a).1.labelCounter = a.labelCounter ∧
    (callArgsRevLoop revArgs a).1.panicked = a.panicked := by
  induction revArgs generalizing a with
  | nil => simp [callArgsRevLoop]
  | cons e rest ih =>
    have hp := codeGenExpr_pres e (getReg a).1 (getReg a).2.1 (by
      rw [getReg_eq]; exact append_singleton_ne_nil _ _)
    obtain ⟨pr, pu, ps, pk, pf, pl, pp⟩ := hp
    have hfr := getReg_mid_freeRU a ((codeGenExpr e (getReg a).1 (getReg a).2.1).1.pushStack 4)
      hne (by simpa [Alloc.pushStack] using pr) (by simpa [Alloc.pushStack] using pu)
    obtain ⟨f1, f2, f3, f4, f5, f6, f7, _, _, _⟩ := hfr
    set fs := (freeReg (getReg a).1
      ((codeGenExpr e (getReg a).1 (getReg a).2.1).1.pushStack 4)).1 with hfs
    have hneF : fs.regs ≠ [] := by rw [f1]; exact hne
    have hihr := ih fs hneF
    have hstep : fs.stackSize = a.stackSize + 4 := by
      rw [f3]
      simp only [Alloc.pushStack]
      rw [ps]
      rw [getReg_eq]
      simp only
      omega
    simp only [callArgsRevLoop]
    refine ⟨?_, ?_, ?_, ?_, ?_, ?_, ?_⟩
    · rw [hihr.1, f1]
    · rw [hihr.2.1, f2]
    · rw [hihr.2.2.1, hstep]
      simp only [List.length_cons, Int.ofNat_eq_natCast]
      push_cast
      ring
    · rw [hihr.2.2.2.1, f4]
      simp only [Alloc.pushStack]
      rw [pk]
      rw [getReg_eq]
    · rw [hihr.2.2.2.2.1, f5]
      simp only [Alloc.pushStack]
      rw [pf]
      rw [getReg_eq]
    · rw [hihr.2.2.2.2.2.1, f6]
      simp only [Alloc.pushStack]
      rw [pl]
      rw [getReg_eq]
    · rw [hihr.2.2.2.2.2.2, f7]
      simp only [Alloc.pushStack]
      rw [pp]
      rw [getReg_eq]

theorem codeGenRHS_pres (rhs : RHS) (t : RegId) (a : Alloc) (hne : a.regs ≠ []) :
    ExprPres a (codeGenRHS rhs t a).1 := by
  match rhs with
  | .pairLiterRHS fstE sndE =>
    have hne2 : (getReg a).2.1.regs ≠ [] := by
      rw [getReg_eq]; exact append_singleton_ne_nil _ _
    have h1 := codeGenExpr_pres fstE (getReg a).1 (getReg a).2.1 hne2
    have hne3 : (codeGenExpr fstE (getReg a).1 (getReg a).2.1).1.regs ≠ [] := by
      rw [h1.1, getReg_eq]; exact append_singleton_ne_nil _ _
    have h2 := codeGenExpr_pres sndE (getReg a).1
      (codeGenExpr fstE (getReg a).1 (getReg a).2.1).1 hne3
    have h := (getReg_mid_free a _ hne (exprPres_trans h1 h2)).1
    simp only [codeGenRHS]
    exact h
  | .arrayLiterRHS elements =>
    have hne2 : (getReg a).2.1.regs ≠ [] := by
      rw [getReg_eq]; exact append_singleton_ne_nil _ _
    have h1 := arrayLiterLoop_pres elements 1 (getReg a).1 t (getReg a).2.1 hne2
    have h := (getReg_mid_free a _ hne h1).1
    simp only [codeGenRHS]
    exact h
  | .pairElemRHS snd e =>
    simp only [codeGenRHS]
    exact pairElemGen_pres e t a hne
  | .functionCallRHS ident args =>
    have h := callArgsRevLoop_state args.reverse a hne
    simp only [codeGenRHS]
    refine ⟨?_, ?_, ?_, ?_, ?_, ?_, ?_⟩ <;>
      simp [Alloc.popStack, h.1, h.2.1, h.2.2.1, h.2.2.2.1, h.2.2.2.2.1,
        h.2.2.2.2.2.1, h.2.2.2.2.2.2] <;> push_cast <;> ring
  | .expressionRHS e =>
    simp only [codeGenRHS]
    exact codeGenExpr_pres e t a hne

/-- The print helper restores the rotation list and usage; only the
pools (and, for a typeless expression, the panic flag) move. -/
theorem codeGenPrint_RU (e : Expr) (a : Alloc) (hne : a.regs ≠ []) :
    RU a (codeGenPrint e a).1 := by
  have hne2 : (getReg a).2.1.regs ≠ [] := by
    rw [getReg_eq]; exact append_singleton_ne_nil _ _
  have h1 := codeGenExpr_pres e (getReg a).1 (getReg a).2.1 hne2
  have h := (getReg_mid_free a _ hne h1).1
  simp only [codeGenPrint]
  cases hpl : printLabelOf (exprType e) with
  | some lbl =>
    simp only
    exact ⟨by simp [Alloc.fsAddA, h.1], by simp [Alloc.fsAddA, h.2.1]⟩
  | none =>
    simp only
    exact ⟨h.1, h.2.1⟩

/-- Statements whose lowering returns every register it takes: no free
statement anywhere (FreeStatement.CodeGen never calls FreeReg) and no
read of an expression without a read helper (that case panics between
GetReg and FreeReg). -/
def noLeak : Stmt → Bool
  | .nilS => true
  | .skipS n => noLeak n
  | .blockS b n => noLeak b && noLeak n
  | .declareS _ _ n => noLeak n
  | .assignS _ _ n => noLeak n
  | .readS t n => (readLabelOf (lhsType t)).isSome && noLeak n
  | .freeS _ _ => false
  | .returnS _ n => noLeak n
  | .exitS _ n => noLeak n
  | .printlnS _ n => noLeak n
  | .printS _ n => noLeak n
  | .ifS _ ts fs n => noLeak ts && noLeak fs && noLeak n
  | .whileS _ b n => noLeak b && noLeak n

theorem ru_ne {a b : Alloc} (h : RU a b) (hne : a.regs ≠ []) : b.regs ≠ [] := by
  rw [h.1]; exact hne

theorem roundtripRU (a mid : Alloc) (hne : a.regs ≠ []) (h : RU (getReg a).2.1 mid) :
    RU a (freeReg (getReg a).1 mid).1 := by
  have hh := getReg_mid_freeRU a mid hne h.1 h.2
  exact ⟨hh.1, hh.2.1⟩

/-- Lowering a statement chain that leaks no register restores the
rotation list and the usage counters. -/
theorem codeGenStmt_RU (s : Stmt) (a : Alloc) (hne : a.regs ≠ []) (hs : noLeak s = true) :
    RU a (codeGenStmt s a).1 := by
  induction s generalizing a with
  | nilS =>
    simp only [codeGenStmt]
    exact ru_refl a
  | skipS next ih =>
    simp only [codeGenStmt]
    exact ih a hne (by simpa [noLeak] using hs)
  | blockS body next ihb ihn =>
    rw [noLeak, Bool.and_eq_true] at hs
    simp only [codeGenStmt]
    have h0 : RU a (startScope (getUniqueLabelSuffix a).2) := ⟨rfl, rfl⟩
    have h1 := ihb (startScope (getUniqueLabelSuffix a).2) (ru_ne h0 hne) hs.1
    have h2 : RU a (cleanupScope (codeGenStmt body (startScope (getUniqueLabelSuffix a).2)).1).1 :=
      ru_trans (ru_trans h0 h1) ⟨rfl, rfl⟩
    exact ru_trans h2 (ihn _ (ru_ne h2 hne) hs.2)
  | declareS ident rhs next ihn =>
    rw [noLeak] at hs
    simp only [codeGenStmt]
    have h0 : RU a (declareVar ident a).1 := ⟨rfl, rfl⟩
    have hneD : (declareVar ident a).1.regs ≠ [] := ru_ne h0 hne
    have hp := codeGenRHS_pres rhs (getReg (declareVar ident a).1).1
      (getReg (declareVar ident a).1).2.1
      (by rw [getReg_eq]; exact append_singleton_ne_nil _ _)
    have hf := roundtripRU (declareVar ident a).1 _ hneD (exprPres_ru hp)
    have h2 : RU a (freeReg (getReg (declareVar ident a).1).1
        (codeGenRHS rhs (getReg (declareVar ident a).1).1 (getReg (declareVar ident a).1).2.1).1).1 :=
      ru_trans h0 hf
    exact ru_trans h2 (ihn _ (ru_ne h2 hne) hs)
  | assignS target rhs next ihn =>
    rw [noLeak] at hs
    simp only [codeGenStmt]
    have hp1 := codeGenLHS_pres target (getReg a).1 (getReg a).2.1
      (by rw [getReg_eq]; exact append_singleton_ne_nil _ _)
    set b1 := (codeGenLHS target (getReg a).1 (getReg a).2.1).1 with hb1
    have hneB1 : b1.regs ≠ [] := by
      rw [hp1.1, getReg_eq]; exact append_singleton_ne_nil _ _
    have hp2 := codeGenRHS_pres rhs (getReg b1).1 (getReg b1).2.1
      (by rw [getReg_eq]; exact append_singleton_ne_nil _ _)
    have hf2 := roundtripRU b1 _ hneB1 (exprPres_ru hp2)
    have hmid : RU (getReg a).2.1 (freeReg (getReg b1).1
        (codeGenRHS rhs (getReg b1).1 (getReg b1).2.1).1).1 :=
      ru_trans (exprPres_ru hp1) hf2
    have hf1 := roundtripRU a _ hne hmid
    exact ru_trans hf1 (ihn _ (ru_ne hf1 hne) hs)
  | readS target next ihn =>
    rw [noLeak, Bool.and_eq_true] at hs
    simp only [codeGenStmt]
    cases hrl : readLabelOf (lhsType target) with
    | none =>
      rw [hrl] at hs
      simp at hs
    | some lbl =>
      simp only
      have hp := codeGenLHS_pres target (getReg a).1 (getReg a).2.1
        (by rw [getReg_eq]; exact append_singleton_ne_nil _ _)
      have hmid : RU (getReg a).2.1
          ((codeGenLHS target (getReg a).1 (getReg a).2.1).1.fsAddA lbl) :=
        ru_trans (exprPres_ru hp) ⟨rfl, rfl⟩
      have hf := roundtripRU a _ hne hmid
      exact ru_trans hf (ihn _ (ru_ne hf hne) hs.2)
  | freeS expr next ihn =>
    rw [noLeak] at hs
    exact absurd hs (by simp)
  | returnS expr next ihn =>
    rw [noLeak] at hs
    simp only [codeGenStmt]
    have hp := codeGenExpr_pres expr (getReg a).1 (getReg a).2.1
      (by rw [getReg_eq]; exact append_singleton_ne_nil _ _)
    have hf := roundtripRU a _ hne (exprPres_ru hp)
    exact ru_trans hf (ihn _ (ru_ne hf hne) hs)
  | exitS expr next ihn =>
    rw [noLeak] at hs
    simp only [codeGenStmt]
    have hp := codeGenExpr_pres expr (getReg a).1 (getReg a).2.1
      (by rw [getReg_eq]; exact append_singleton_ne_nil _ _)
    have hf := roundtripRU a _ hne (exprPres_ru hp)
    exact ru_trans hf (ihn _ (ru_ne hf hne) hs)
  | printlnS expr next ihn =>
    rw [noLeak] at hs
    simp only [codeGenStmt]
    have hp := codeGenPrint_RU expr a hne
    exact ru_trans hp (ihn _ (ru_ne hp hne) hs)
  | printS expr next ihn =>
    rw [noLeak] at hs
    simp only [codeGenStmt]
    have hp := codeGenPrint_RU expr a hne
    exact ru_trans hp (ihn _ (ru_ne hp hne) hs)
  | ifS cond tS fS next iht ihf ihn =>
    rw [noLeak, Bool.and_eq_true, Bool.and_eq_true] at hs
    simp only [codeGenStmt]
    have h0 : RU a (getUniqueLabelSuffix a).2 := ⟨rfl, rfl⟩
    have hneS : (getUniqueLabelSuffix a).2.regs ≠ [] := ru_ne h0 hne
    have hp := codeGenExpr_pres cond (getReg (getUniqueLabelSuffix a).2).1
      (getReg (getUniqueLabelSuffix a).2).2.1
      (by rw [getReg_eq]; exact append_singleton_ne_nil _ _)
    have hf := roundtripRU (getUniqueLabelSuffix a).2 _ hneS (exprPres_ru hp)
    have h1 : RU a (freeReg (getReg (getUniqueLabelSuffix a).2).1
        (codeGenExpr cond (getReg (getUniqueLabelSuffix a).2).1
          (getReg (getUniqueLabelSuffix a).2).2.1).1).1 := ru_trans h0 hf
    have h2 : RU a (startScope (freeReg (getReg (getUniqueLabelSuffix a).2).1
        (codeGenExpr cond (getReg (getUniqueLabelSuffix a).2).1
          (getReg (getUniqueLabelSuffix a).2).2.1).1).1) := ru_trans h1 ⟨rfl, rfl⟩
    have h3 := iht _ (ru_ne h2 hne) hs.1.1
    have h4 : RU a (startScope (cleanupScope (codeGenStmt tS _).1).1) :=
      ru_trans (ru_trans (ru_trans h2 h3) ⟨rfl, rfl⟩) ⟨rfl, rfl⟩
    have h5 := ihf _ (ru_ne h4 hne) hs.1.2
    have h6 : RU a (cleanupScope (codeGenStmt fS _).1).1 :=
      ru_trans (ru_trans h4 h5) ⟨rfl, rfl⟩
    exact ru_trans h6 (ihn _ (ru_ne h6 hne) hs.2)
  | whileS cond body next ihb ihn =>
    rw [noLeak, Bool.and_eq_true] at hs
    simp only [codeGenStmt]
    have h0 : RU a (startScope (getUniqueLabelSuffix a).2) := ⟨rfl, rfl⟩
    have h1 := ihb _ (ru_ne h0 hne) hs.1
    have h2 : RU a (cleanupScope (codeGenStmt body (startScope (getUniqueLabelSuffix a).2)).1).1 :=
      ru_trans (ru_trans h0 h1) ⟨rfl, rfl⟩
    have hp := codeGenExpr_pres cond
      (getReg (cleanupScope (codeGenStmt body (startScope (getUniqueLabelSuffix a).2)).1).1).1
      (getReg (cleanupScope (codeGenStmt body (startScope (getUniqueLabelSuffix a).2)).1).1).2.1
      (by rw [getReg_eq]; exact append_singleton_ne_nil _ _)
    have hf := roundtripRU _ _ (ru_ne h2 hne) (exprPres_ru hp)
    have h3 : RU a _ := ru_trans h2 hf
    exact ru_trans h3 (ihn _ (ru_ne h3 hne) hs.2)

/-!
Weight facts.  Every expression that can occur in the AST handed to the
lowerer weighs at least one (the parser consumes parenthesis nodes), so
the minimum-tracking loop of ArrayElem.Weight never fires.
-/

mutual

theorem weight_nonneg (e : Expr) : 0 ≤ weight e := by
  match e with
  | .identE ident ty => simp [weight]
  | .intLit n => simp [weight]
  | .boolLitTrue => simp [weight]
  | .boolLitFalse => simp [weight]
  | .charLit c => simp [weight]
  | .strLit s => simp [weight]
  | .nullPair => simp [weight]
  | .arrayElem ident indexes ty =>
    rw [weight, weightIdxLoop_zero indexes]
    omega
  | .notE e1 => rw [weight]; exact weight_nonneg e1
  | .negE e1 => rw [weight]; exact weight_nonneg e1
  | .lenE e1 => rw [weight]; exact weight_nonneg e1
  | .ordE e1 => rw [weight]; exact weight_nonneg e1
  | .chrE e1 => rw [weight]; exact weight_nonneg e1
  | .mult l r =>
    have hl := weight_nonneg l
    have hr := weight_nonneg r
    rw [weight]; simp only [binWeight, maxWeight, minWeight]
    split_ifs <;> omega
  | .divE l r =>
    have hl := weight_nonneg l
    have hr := weight_nonneg r
    rw [weight]; simp only [binWeight, maxWeight, minWeight]
    split_ifs <;> omega
  | .modE l r =>
    have hl := weight_nonneg l
    have hr := weight_nonneg r
    rw [weight]; simp only [binWeight, maxWeight, minWeight]
    split_ifs <;> omega
  | .add l r =>
    have hl := weight_nonneg l
    have hr := weight_nonneg r
    rw [weight]; simp only [binWeight, maxWeight, minWeight]
    split_ifs <;> omega
  | .sub l r =>
    have hl := weight_nonneg l
    have hr := weight_nonneg r
    rw [weight]; simp only [binWeight, maxWeight, minWeight]
    split_ifs <;> omega
  | .gt l r =>
    have hl := weight_nonneg l
    have hr := weight_nonneg r
    rw [weight]; simp only [binWeight, maxWeight, minWeight]
    split_ifs <;> omega
  | .ge l r =>
    have hl := weight_nonneg l
    have hr := weight_nonneg r
    rw [weight]; simp only [binWeight, maxWeight, minWeight]
    split_ifs <;> omega
  | .lt l r =>
    have hl := weight_nonneg l
    have hr := weight_nonneg r
    rw [weight]; simp only [binWeight, maxWeight, minWeight]
    split_ifs <;> omega
  | .le l r =>
    have hl := weight_nonneg l
    have hr := weight_nonneg r
    rw [weight]; simp only [binWeight, maxWeight, minWeight]
    split_ifs <;> omega
  | .eq l r =>
    have hl := weight_nonneg l
    have hr := weight_nonneg r
    rw [weight]; simp only [binWeight, maxWeight, minWeight]
    split_ifs <;> omega
  | .ne l r =>
    have hl := weight_nonneg l
    have hr := weight_nonneg r
    rw [weight]; simp only [binWeight, maxWeight, minWeight]
    split_ifs <;> omega
  | .andE l r =>
    have hl := weight_nonneg l
    have hr := weight_nonneg r
    rw [weight]; simp only [binWeight, maxWeight, minWeight]
    split_ifs <;> omega
  | .orE l r =>
    have hl := weight_nonneg l
    have hr := weight_nonneg r
    rw [weight]; simp only [binWeight, maxWeight, minWeight]
    split_ifs <;> omega
termination_by 2 * sizeOf e + 1

/-- The ArrayElem minimum-tracking loop started from the zero cache
never updates it: every index weight is nonnegative, so the strict
comparison 0 > weight never holds. -/
theorem weightIdxLoop_zero (l : List Expr) : weightIdxLoop 0 l = 0 := by
  match l with
  | [] => rfl
  | e :: rest =>
    have he := weight_nonneg e
    rw [weightIdxLoop, if_neg (by omega)]
    exact weightIdxLoop_zero rest
termination_by 2 * sizeOf l

end

/-!
Characterisation of the Lookup32 widening loop.
-/

/-- The per-character widening the spec describes: a backslash passes
through unwidened, any other character gains the assembler text for
three trailing zero bytes. -/
def widenChar (c : Char) : List Char :=
  if c = '\\' then [c] else c :: "\\000\\000\\000".toList

theorem lookup32Loop_spec (l : List Char) :
    lookup32Loop l = (l.flatMap widenChar, l.count '\\') := by
  induction l with
  | nil => simp [lookup32Loop]
  | cons c cs ih =>
    by_cases hc : c = '\\'
    · simp [lookup32Loop, widenChar, hc, ih, List.count_cons]
    · simp [lookup32Loop, widenChar, hc, ih, List.count_cons]

/-!
Concrete fixtures used by the claim theorems: allocator states as a
procedure lowering sees them, and small well-typed programs.
-/

/-- The allocator at the start of a statement inside main: fresh
registers, one open scope. -/
def allocMain : Alloc := { createRegAllocator with fname := "main", stack := [[]] }

/-- The state after one GetReg, as an expression lowering sees it when a
statement has taken a target register. -/
def allocMain1 : Alloc := (getReg allocMain).2.1

/-- begin pair(int,int) p = null ; free p end -/
def freeProg : ASTM :=
  { functions := [],
    main := .declareS "p" (.expressionRHS .nullPair) (.freeS (.identE "p" .pairT) .nilS) }

/-- begin print 1 ; print a-character end -/
def printProg : ASTM :=
  { functions := [], main := .printS (.intLit 1) (.printS (.charLit 'a') .nilS) }

/-- The comparison (1 + 2) > 0, whose left operand outweighs its right
operand. -/
def gtHeavyLhs : Expr := .gt (.add (.intLit 1) (.intLit 2)) (.intLit 0)

def freeP (next : Stmt) : Stmt := .freeS (.identE "p" .pairT) next

/-- A block declaring one pair variable and freeing it nine times: the
ninth free statement spills the register GetReg hands out and the spill
is never popped. -/
def nineFreesBlock : Stmt :=
  .blockS (.declareS "p" (.expressionRHS .nullPair)
    (freeP (freeP (freeP (freeP (freeP (freeP (freeP (freeP (freeP .nilS)))))))))) .nilS

def freeNull (next : Stmt) : Stmt := .freeS .nullPair next

/-- Eight frees of null followed by while true do skip done: at the
while statement every register is leaked-live, so the condition register
is spilled and FreeReg pops it between the condition and the CMP. -/
def eightFreesWhile : Stmt :=
  freeNull (freeNull (freeNull (freeNull (freeNull (freeNull (freeNull (freeNull
    (.whileS .boolLitTrue (.skipS .nilS) .nilS))))))))

/-- int[] a = [1] -/
def arrayLitDecl : Stmt := .declareS "a" (.arrayLiterRHS [.intLit 1]) .nilS

/-- A call with five arguments. -/
def fiveArgs : List Expr :=
  [.intLit 1, .intLit 2, .intLit 3, .intLit 4, .intLit 5]

/-!
The claim theorems.
-/

/-- C1: the claim fails on the code.  For the well-typed program
begin pair(int,int) p = null ; free p end the emitted stream contains a
BL to pi_check_null_pointer but no LABEL pi_check_null_pointer at all:
FreeStatement.CodeGen (and likewise pairElem, arrayHelper and
PrintLnStatement.CodeGen) never adds the referenced helper to the helper
pool, so the driver emits no body for it.  The helper pool after
lowering is empty, making the empty iteration order the only possible
one. -/
theorem c1_free_null_check_label_missing :
    hasBL (codeGenAST freeProg []) mNullReferenceLbl = true ∧
    countLABEL (codeGenAST freeProg []) mNullReferenceLbl = 0 ∧
    astFsPool freeProg = [] ∧ IsIterOrder freeProg [] := by
  refine ⟨by decide, by decide, by decide, by decide, by decide, by decide⟩

/-- C2: the claim fails on the code.  For (1 + 2) > 0 the left operand
weighs more, is evaluated first into r4, and the right operand lands in
r5; codeGenComparators then emits CMP r5, r4 - the first operand is the
register holding the right value - followed by MOVGT and MOVLE, so the
generated code computes rhs > lhs. -/
theorem c2_comparison_operands_swapped :
    instrsOf (codeGenExpr gtHeavyLhs 4 allocMain1).2 =
      [Instr.LDR .AL 4 (.constL 2), Instr.LDR .AL 5 (.constL 1),
       Instr.ADD 4 5 (.reg 4), Instr.BL .VS mOverflowLbl,
       Instr.LDR .AL 5 (.constL 0),
       Instr.CMP 5 (.reg 4),
       Instr.MOV .GT 4 (.imm 1), Instr.MOV .LE 4 (.imm 0)] ∧
    weight (.add (.intLit 1) (.intLit 2)) > weight (.intLit 0) := by
  exact ⟨by decide, by decide⟩

/-- C3: the claim fails on the code.  The block statement declaring one
pair variable and freeing it nine times is not a declaration, yet the
allocator stack size grows by four across it: the ninth free statement
makes GetReg spill a register (PUSH, stack credited four bytes) and
FreeStatement.CodeGen never calls FreeReg, so the credit is never
cancelled. -/
theorem c3_free_statement_breaks_stack_neutrality :
    (codeGenStmt nineFreesBlock allocMain).1.stackSize = allocMain.stackSize + 4 := by
  decide

/-- C4 counterexample: after eight free statements every register is
still marked in use, so the while condition register is spilled; the
emitted stream contains POP {r4} immediately before CMP r4, #1 - an
instruction that modifies the condition register sitting between the
condition evaluation and the CMP, which the claim rules out. -/
theorem c4_pop_between_cond_and_cmp :
    ([Instr.POP [4], Instr.CMP 4 (Operand.imm 1)] <:+:
      instrsOf (codeGenStmt eightFreesWhile allocMain).2) ∧
    instrWrites (Instr.POP [4]) 4 = true := by
  exact ⟨by decide, by decide⟩

/-- C7: the FreeReg contract.  Freeing a register other than the tail of
the rotation list only sets the abort flag and emits nothing; freeing
the tail emits exactly one POP when the usage count was above one,
debits the tracked stack by four in that case, decrements the usage
count and rotates the register back to the head. -/
theorem c7_freeReg_contract (a : Alloc) (r : RegId) :
    ((freeReg r a).1.panicked = if r ≠ a.regs.getLastD 0 then true else a.panicked) ∧
    ((freeReg r a).2 = if r ≠ a.regs.getLastD 0 then [] else
      (if 1 < a.usage r then [Event.ins (Instr.POP [r])] else []) ++ [Event.freeR r]) ∧
    ((freeReg r a).1.stackSize = if r ≠ a.regs.getLastD 0 then a.stackSize else
      a.stackSize - (if 1 < a.usage r then 4 else 0)) ∧
    ((freeReg r a).1.usage = if r ≠ a.regs.getLastD 0 then a.usage else
      fun x => if x = r then a.usage r - 1 else a.usage x) ∧
    ((freeReg r a).1.regs = if r ≠ a.regs.getLastD 0 then a.regs else
      r :: a.regs.dropLast) := by
  by_cases h : r ≠ a.regs.getLastD 0
  · unfold freeReg
    rw [if_pos h]
    rw [List.getLastD_eq_getLast?] at h
    simp [h]
  · unfold freeReg
    rw [if_neg h]
    have h2 : r = a.regs.getLastD 0 := not_ne_iff.mp h
    rw [List.getLastD_eq_getLast?] at h2
    simp [h2]

/-- C8: Lookup32 widens every character to the character followed by the
assembler text for three zero bytes, passes a literal backslash through
unwidened, stores the length of the source minus the number of
backslashes, and returns the label msg_N for the index N at which the
entry is appended. -/
theorem c8_lookup32_widening (msg : List Char) (pool : List DataString) :
    lookup32 msg pool =
      ("msg_" ++ toString pool.length,
        pool ++ [{ len := Int.ofNat msg.length - Int.ofNat (msg.count '\\'),
                   str := msg.flatMap widenChar }]) := by
  simp [lookup32, lookup32Loop_spec]

/-- C9: ArrayElem.Weight returns one for every array element expression,
whatever the number and weights of its indexes: the minimum-tracking
loop starts from the zero cache and index weights are never negative, so
the cache stays zero and the final increment yields one. -/
theorem c9_arrayElem_weight_is_one (ident : String) (indexes : List Expr) (ty : Ty) :
    weight (.arrayElem ident indexes ty) = 1 := by
  rw [weight, weightIdxLoop_zero]
  norm_num

/-- C10 counterexample: lowering int[] a = [1] produces a trace in which
the register holding the array length is written (by the LDR of the
length) after it has been passed to FreeReg and before GetReg hands it
out again. -/
theorem c10_write_after_free :
    writesAfterFree (codeGenStmt arrayLitDecl allocMain).2 = true := by
  decide

/-- C5 counterexample: the helper pool of the program
begin print 1 ; print a-character end holds p_print_int and
p_print_char; both orders of these two names are possible Go map
iteration orders, and the two resulting outputs differ (the helper
bodies and their msg indices swap), so two runs of code generation on
the same AST need not produce identical output. -/
theorem c5_output_depends_on_helper_order :
    codeGenAST printProg [mPrintIntLabel, mPrintCharLabel] ≠
      codeGenAST printProg [mPrintCharLabel, mPrintIntLabel] ∧
    IsIterOrder printProg [mPrintIntLabel, mPrintCharLabel] ∧
    IsIterOrder printProg [mPrintCharLabel, mPrintIntLabel] := by
  refine ⟨by decide, ⟨by decide, by decide, by decide⟩, ⟨by decide, by decide, by decide⟩⟩

/-- C10 amended: in array-literal lowering the LDR of the length and the
STR to the array base are emitted with the freed element register as
destination, immediately after FreeReg takes that register back (after
the spill-restoring POP when there was one) and before any further
GetReg. -/
theorem c10_length_stored_after_free (elements : List Expr) (target : RegId)
    (a : Alloc) (hne : a.regs ≠ []) :
    ∃ pre spill,
      (codeGenRHS (.arrayLiterRHS elements) target a).2 =
        pre ++ spill ++
          [Event.freeR (a.regs.headD 0),
           Event.ins (Instr.LDR .AL (a.regs.headD 0)
             (LoadOperand.constL (Int.ofNat elements.length))),
           Event.ins (Instr.STR (a.regs.headD 0) (StoreOperand.regS target))] ∧
      (spill = [] ∨ spill = [Event.ins (Instr.POP [a.regs.headD 0])]) := by
  have hp := arrayLiterLoop_pres elements 1 (getReg a).1 target (getReg a).2.1
    (by rw [getReg_eq]; exact append_singleton_ne_nil _ _)
  have hfr := getReg_mid_freeRU a
    (arrayLiterLoop elements 1 (getReg a).1 target (getReg a).2.1).1 hne hp.1 hp.2.1
  have hev := hfr.2.2.2.2.2.2.2.2.2
  refine ⟨[Event.ins (Instr.LDR .AL 0 (LoadOperand.constL (Int.ofNat (elements.length * 4 + 4)))),
      Event.ins (Instr.BL .AL mMalloc),
      Event.ins (Instr.MOV .AL target (Operand.reg 0))] ++ (getReg a).2.2 ++
      (arrayLiterLoop elements 1 (getReg a).1 target (getReg a).2.1).2,
    if 0 < a.usage (a.regs.headD 0) then [Event.ins (Instr.POP [a.regs.headD 0])] else [],
    ?_, ?_⟩
  · simp only [codeGenRHS]
    rw [hev]
    have hr1 : (getReg a).1 = a.regs.headD 0 := rfl
    rw [hr1]
    simp [List.append_assoc]
  · by_cases hc : 0 < a.usage (a.regs.headD 0)
    · right; rw [if_pos hc]
    · left; rw [if_neg hc]

/-- C10 amended witness at int[] a = [1]: no spill, so the POP list is
empty and the length load and store directly follow the FreeReg. -/
theorem c10_length_stored_after_free_witness :
    ∃ pre spill,
      (codeGenRHS (.arrayLiterRHS [.intLit 1]) 4 allocMain1).2 =
        pre ++ spill ++
          [Event.freeR (allocMain1.regs.headD 0),
           Event.ins (Instr.LDR .AL (allocMain1.regs.headD 0)
             (LoadOperand.constL (Int.ofNat 1))),
           Event.ins (Instr.STR (allocMain1.regs.headD 0) (StoreOperand.regS 4))] ∧
      (spill = [] ∨ spill = [Event.ins (Instr.POP [allocMain1.regs.headD 0])]) :=
  c10_length_stored_after_free [.intLit 1] 4 allocMain1 (by decide)

/-- The evaluation-and-push sequence the calling convention describes:
every argument of the reversed list is evaluated into the register a
fresh GetReg returns, a PUSH of that register follows immediately, and
no spill traffic surrounds the pair. -/
def callClaimBlocks (revArgs : List Expr) (a : Alloc) : List Instr :=
  match revArgs with
  | [] => []
  | e :: rest =>
    let g := getReg a
    let p := codeGenExpr e g.1 g.2.1
    let f := freeReg g.1 (p.1.pushStack 4)
    instrsOf p.2 ++ [Instr.PUSH [g.1]] ++ callClaimBlocks rest f.1

theorem instrsOf_map_ins {α : Type} (f : α → Instr) (l : List α) :
    instrsOf (l.map fun x => Event.ins (f x)) = l.map f := by
  induction l with
  | nil => rfl
  | cons x xs ih => simp only [List.map_cons, instrsOf, List.filterMap_cons] at ih ⊢; rw [ih]

/-- When the head register is unused on entry, the argument loop of a
function call emits exactly the claim sequence: per argument, the
argument evaluation followed by one PUSH, with no spill traffic. -/
theorem callArgsRevLoop_blocks (revArgs : List Expr) (a : Alloc) (hne : a.regs ≠ [])
    (hz : a.usage (a.regs.headD 0) = 0) :
    instrsOf (callArgsRevLoop revArgs a).2 = callClaimBlocks revArgs a := by
  induction revArgs generalizing a with
  | nil => simp [callArgsRevLoop, callClaimBlocks, instrsOf]
  | cons e rest ih =>
    have hp := codeGenExpr_pres e (getReg a).1 (getReg a).2.1
      (by rw [getReg_eq]; exact append_singleton_ne_nil _ _)
    have hfr := getReg_mid_freeRU a
      ((codeGenExpr e (getReg a).1 (getReg a).2.1).1.pushStack 4) hne
      (by simpa [Alloc.pushStack] using hp.1) (by simpa [Alloc.pushStack] using hp.2.1)
    have hzz : ¬ 0 < a.usage (a.regs.headD 0) := by rw [hz]; exact lt_irrefl 0
    have hgev : (getReg a).2.2 = [Event.getR (a.regs.headD 0)] := by
      rw [getReg_eq]
      simp only [if_neg hzz, List.nil_append]
    have hfev : (freeReg (getReg a).1
        ((codeGenExpr e (getReg a).1 (getReg a).2.1).1.pushStack 4)).2 =
        [Event.freeR (a.regs.headD 0)] := by
      rw [hfr.2.2.2.2.2.2.2.2.2, if_neg hzz, List.nil_append]
    have hihr := ih (freeReg (getReg a).1
        ((codeGenExpr e (getReg a).1 (getReg a).2.1).1.pushStack 4)).1
      (by rw [hfr.1]; exact hne) (by rw [hfr.2.1, hfr.1]; exact hz)
    simp only [callArgsRevLoop, callClaimBlocks]
    rw [instrsOf_append, instrsOf_append, instrsOf_append, instrsOf_append]
    rw [hgev, hfev, hihr]
    simp [instrsOf]

/-- C6: the lowering of a function call with any number of arguments,
started with the head register free, consists of: the arguments
evaluated in reverse order with a PUSH after each evaluation, POPs of
the first min(N,4) arguments into r0, r1, r2, r3 in increasing register
order, BL to the callee, MOV of r0 into the target, and, when N exceeds
four, one ADD sp, sp, #(N-4)*4; the allocator stack size returns to its
entry value. -/
theorem c6_call_convention (f : String) (args : List Expr) (t : RegId) (a : Alloc)
    (hne : a.regs ≠ []) (hz : a.usage (a.regs.headD 0) = 0) :
    instrsOf (codeGenRHS (.functionCallRHS f args) t a).2 =
      callClaimBlocks args.reverse a ++
      (List.range (min 4 args.length)).map (fun i => Instr.POP [i]) ++
      ([Instr.BL .AL f, Instr.MOV .AL t (Operand.reg 0)] ++
        (if 4 < args.length then
          [Instr.ADD spReg spReg (Operand.imm (Int.ofNat ((args.length - 4) * 4)))]
        else [])) ∧
    (codeGenRHS (.functionCallRHS f args) t a).1.stackSize = a.stackSize := by
  have hblocks := callArgsRevLoop_blocks args.reverse a hne hz
  have hstate := callArgsRevLoop_state args.reverse a hne
  constructor
  · simp only [codeGenRHS]
    rw [instrsOf_append, instrsOf_append, hblocks,
      instrsOf_map_ins (fun i => Instr.POP [i])]
    congr 1
    by_cases hc : 4 < args.length <;> simp [hc, instrsOf]
  · simp only [codeGenRHS, Alloc.popStack]
    rw [hstate.2.2.1]
    simp only [List.length_reverse, Int.ofNat_eq_natCast]
    push_cast
    ring

/-- C6 witness: a call with five integer arguments from the state a
declaration reaches; the arguments are evaluated last first, each pushed
after its evaluation, r0 to r3 popped in increasing order, and the extra
stack argument dropped by ADD sp, sp, #4. -/
theorem c6_call_convention_witness :
    instrsOf (codeGenRHS (.functionCallRHS "f" fiveArgs) 4 allocMain1).2 =
      [Instr.LDR .AL 5 (.constL 5), Instr.PUSH [5],
       Instr.LDR .AL 5 (.constL 4), Instr.PUSH [5],
       Instr.LDR .AL 5 (.constL 3), Instr.PUSH [5],
       Instr.LDR .AL 5 (.constL 2), Instr.PUSH [5],
       Instr.LDR .AL 5 (.constL 1), Instr.PUSH [5],
       Instr.POP [0], Instr.POP [1], Instr.POP [2], Instr.POP [3],
       Instr.BL .AL "f", Instr.MOV .AL 4 (Operand.reg 0),
       Instr.ADD spReg spReg (Operand.imm 4)] ∧
    (codeGenRHS (.functionCallRHS "f" fiveArgs) 4 allocMain1).1.stackSize =
      allocMain1.stackSize := by
  have h := c6_call_convention "f" fiveArgs 4 allocMain1 (by decide) (by decide)
  refine ⟨?_, h.2⟩
  rw [h.1]
  decide

/-- C4 amended: when a while statement is lowered with every usage
counter zero on entry and a body that leaks no register, the condition
label is followed by exactly the lowered condition expression and then
immediately by the CMP against 1 and the BEQ back to the body, with no
spill-restoring POP in between. -/
theorem c4_cmp_follows_condition (cond : Expr) (body next : Stmt) (a : Alloc)
    (hne : a.regs ≠ []) (hz : ∀ r, a.usage r = 0) (hb : noLeak body = true) :
    ∃ su t mid pre post,
      t = (getReg mid).1 ∧
      instrsOf (codeGenStmt (.whileS cond body next) a).2 =
        pre ++ [Instr.LABEL ("cond" ++ su)] ++
          instrsOf (codeGenExpr cond t (getReg mid).2.1).2 ++
          [Instr.CMP t (Operand.imm 1), Instr.B .EQ ("do" ++ su),
           Instr.LABEL ("end" ++ su)] ++ post := by
  have h0 : RU a (startScope (getUniqueLabelSuffix a).2) := ⟨rfl, rfl⟩
  have h1 := codeGenStmt_RU body (startScope (getUniqueLabelSuffix a).2) (ru_ne h0 hne) hb
  have hC : RU a (cleanupScope
      (codeGenStmt body (startScope (getUniqueLabelSuffix a).2)).1).1 :=
    ru_trans (ru_trans h0 h1) ⟨rfl, rfl⟩
  set mid := (cleanupScope (codeGenStmt body (startScope (getUniqueLabelSuffix a).2)).1).1
    with hmid
  have hneM : mid.regs ≠ [] := ru_ne hC hne
  have hzz : ¬ 0 < mid.usage (mid.regs.headD 0) := by
    rw [hC.2, hz]
    exact lt_irrefl 0
  have hgev : (getReg mid).2.2 = [Event.getR (mid.regs.headD 0)] := by
    rw [getReg_eq]
    simp only [if_neg hzz, List.nil_append]
  have hp := codeGenExpr_pres cond (getReg mid).1 (getReg mid).2.1
    (by rw [getReg_eq]; exact append_singleton_ne_nil _ _)
  have hfr := getReg_mid_freeRU mid (codeGenExpr cond (getReg mid).1 (getReg mid).2.1).1
    hneM hp.1 hp.2.1
  have hfev : (freeReg (getReg mid).1
      (codeGenExpr cond (getReg mid).1 (getReg mid).2.1).1).2 =
      [Event.freeR (mid.regs.headD 0)] := by
    rw [hfr.2.2.2.2.2.2.2.2.2, if_neg hzz, List.nil_append]
  refine ⟨(getUniqueLabelSuffix a).1, (getReg mid).1, mid,
    [Instr.LABEL ("while" ++ (getUniqueLabelSuffix a).1),
     Instr.B .AL ("cond" ++ (getUniqueLabelSuffix a).1),
     Instr.LABEL ("do" ++ (getUniqueLabelSuffix a).1)] ++
      instrsOf (codeGenStmt body (startScope (getUniqueLabelSuffix a).2)).2 ++
      instrsOf (cleanupScope (codeGenStmt body (startScope (getUniqueLabelSuffix a).2)).1).2,
    instrsOf (codeGenStmt next (freeReg (getReg mid).1
      (codeGenExpr cond (getReg mid).1 (getReg mid).2.1).1).1).2,
    rfl, ?_⟩
  simp only [codeGenStmt]
  rw [← hmid]
  simp only [instrsOf_append]
  rw [hgev, hfev]
  simp [instrsOf]

/-- C4 amended witness: while true do skip done from the entry allocator
of main, where every usage counter is zero. -/
theorem c4_cmp_follows_condition_witness :
    ∃ su t mid pre post,
      t = (getReg mid).1 ∧
      instrsOf (codeGenStmt (.whileS .boolLitTrue (.skipS .nilS) .nilS) allocMain).2 =
        pre ++ [Instr.LABEL ("cond" ++ su)] ++
          instrsOf (codeGenExpr .boolLitTrue t (getReg mid).2.1).2 ++
          [Instr.CMP t (Operand.imm 1), Instr.B .EQ ("do" ++ su),
           Instr.LABEL ("end" ++ su)] ++ post :=
  c4_cmp_follows_condition .boolLitTrue (.skipS .nilS) .nilS allocMain
    (by decide) (fun r => rfl) (by decide)

theorem fsMap_pool_extend (name : String) (gen : Alloc → Alloc × List Event)
    (hg : fsMap name = some gen) (a : Alloc) :
    ∃ e, (gen a).1.stringPool = a.stringPool ++ e := by
  unfold fsMap at hg
  by_cases h1 : name = mPrintIntLabel
  · rw [if_pos h1] at hg
    injection hg with h
    subst h
    exact ⟨[⟨Int.ofNat mPrintInt.toList.length, mPrintInt.toList⟩],
      by simp [printInt, Alloc.lookup8A, lookup8]⟩
  rw [if_neg h1] at hg
  by_cases h2 : name = mPrintCharLabel
  · rw [if_pos h2] at hg
    injection hg with h
    subst h
    exact ⟨[], by simp [printChar]⟩
  rw [if_neg h2] at hg
  by_cases h3 : name = mPrintBoolLabel
  · rw [if_pos h3] at hg
    injection hg with h
    subst h
    exact ⟨[⟨Int.ofNat mTrue.toList.length, mTrue.toList⟩,
        ⟨Int.ofNat mFalse.toList.length, mFalse.toList⟩],
      by simp [printBool, Alloc.lookup8A, lookup8]⟩
  rw [if_neg h3] at hg
  by_cases h4 : name = mPrintStringLabel
  · rw [if_pos h4] at hg
    injection hg with h
    subst h
    exact ⟨[], by simp [printString]⟩
  rw [if_neg h4] at hg
  by_cases h5 : name = mPrintReferenceLabel
  · rw [if_pos h5] at hg
    injection hg with h
    subst h
    exact ⟨[⟨Int.ofNat mPrintReference.toList.length, mPrintReference.toList⟩],
      by simp [printReference, Alloc.lookup8A, lookup8]⟩
  rw [if_neg h5] at hg
  by_cases h6 : name = mPrintNewLineLabel
  · rw [if_pos h6] at hg
    injection hg with h
    subst h
    exact ⟨[⟨Int.ofNat mNewLine.toList.length, mNewLine.toList⟩],
      by simp [printNewLine, Alloc.lookup8A, lookup8]⟩
  rw [if_neg h6] at hg
  by_cases h7 : name = mReadIntLabel
  · rw [if_pos h7] at hg
    injection hg with h
    subst h
    exact ⟨[⟨Int.ofNat mPrintInt.toList.length, mPrintInt.toList⟩],
      by simp [readInt, Alloc.lookup8A, lookup8]⟩
  rw [if_neg h7] at hg
  by_cases h8 : name = mReadCharLabel
  · rw [if_pos h8] at hg
    injection hg with h
    subst h
    exact ⟨[⟨Int.ofNat mReadChar.toList.length, mReadChar.toList⟩],
      by simp [readChar, Alloc.lookup8A, lookup8]⟩
  rw [if_neg h8] at hg
  by_cases h9 : name = mDivideByZeroLbl
  · rw [if_pos h9] at hg
    injection hg with h
    subst h
    exact ⟨[⟨Int.ofNat mDivideByZeroErr.toList.length, mDivideByZeroErr.toList⟩],
      by simp [checkDivideByZero, Alloc.lookup8A, lookup8, Alloc.fsAddA]⟩
  rw [if_neg h9] at hg
  by_cases h10 : name = mNullReferenceLbl
  · rw [if_pos h10] at hg
    injection hg with h
    subst h
    exact ⟨[⟨Int.ofNat mNullReferenceErr.toList.length, mNullReferenceErr.toList⟩],
      by simp [checkNullPointer, Alloc.lookup8A, lookup8, Alloc.fsAddA]⟩
  rw [if_neg h10] at hg
  by_cases h11 : name = mArrayBoundLbl
  · rw [if_pos h11] at hg
    injection hg with h
    subst h
    exact ⟨[⟨Int.ofNat mArrayNegIndexErr.toList.length, mArrayNegIndexErr.toList⟩,
        ⟨Int.ofNat mArrayLrgIndexErr.toList.length, mArrayLrgIndexErr.toList⟩],
      by simp [checkArrayBounds, Alloc.lookup8A, lookup8, Alloc.fsAddA]⟩
  rw [if_neg h11] at hg
  by_cases h12 : name = mOverflowLbl
  · rw [if_pos h12] at hg
    injection hg with h
    subst h
    exact ⟨[⟨Int.ofNat mOverflowErr.toList.length, mOverflowErr.toList⟩],
      by simp [checkOverflowUnderflow, Alloc.lookup8A, lookup8, Alloc.fsAddA]⟩
  rw [if_neg h12] at hg
  by_cases h13 : name = mThrowRuntimeErr
  · rw [if_pos h13] at hg
    injection hg with h
    subst h
    exact ⟨[⟨Int.ofNat mPrintString.toList.length, mPrintString.toList⟩],
      by simp [throwRuntimeError, Alloc.lookup8A, lookup8]⟩
  rw [if_neg h13] at hg
  exact Option.noConfusion hg

theorem runHelpers_pool_extend (order : List String) (sp : List DataString)
    (fp : List String) :
    ∃ e, (runHelpers order sp fp).2.1 = sp ++ e := by
  induction order generalizing sp fp with
  | nil => exact ⟨[], by simp [runHelpers]⟩
  | cons name rest ih =>
    simp only [runHelpers]
    cases hm : fsMap name with
    | none => exact ih sp fp
    | some gen =>
      obtain ⟨e1, he1⟩ := fsMap_pool_extend name gen hm
        { createRegAllocator with stringPool := sp, fsPool := fp }
      obtain ⟨e2, he2⟩ := ih
        ((gen { createRegAllocator with stringPool := sp, fsPool := fp }).1.stringPool)
        ((gen { createRegAllocator with stringPool := sp, fsPool := fp }).1.fsPool)
      refine ⟨e1 ++ e2, ?_⟩
      simp only
      rw [he2, he1, List.append_assoc]

theorem dataInstrsFrom_append (i : Nat) (l1 l2 : List DataString) :
    dataInstrsFrom i (l1 ++ l2) =
      dataInstrsFrom i l1 ++ dataInstrsFrom (i + l1.length) l2 := by
  induction l1 generalizing i with
  | nil => simp [dataInstrsFrom]
  | cons d rest ih =>
    simp only [List.cons_append, dataInstrsFrom, List.append_eq, List.length_cons]
    rw [ih]
    have harith : i + 1 + rest.length = i + (rest.length + 1) := by omega
    rw [harith]

/-- C5 amended: for every helper iteration order, the emitted program is
the data header, the data entries of the strings interned by the
function lowerings, some data entries appended by the helpers, the text
header, the function instruction streams, and finally the helper bodies.
The data entries of the function lowerings and the function instruction
streams are written without reference to the order, so only the two
existential trailing parts can vary with the map iteration order. -/
theorem c5_amended (ast : ASTM) (o : List String) :
    ∃ extraData helperIns,
      codeGenAST ast o =
        Instr.DataSeg ::
          (dataInstrsFrom 0 (astFuncRun ast).2.1 ++ extraData) ++
          [Instr.TextSeg, Instr.Global "main"] ++
          instrsOf (astFuncRun ast).1 ++ helperIns := by
  obtain ⟨e, he⟩ := runHelpers_pool_extend o (astFuncRun ast).2.1 (astFuncRun ast).2.2
  refine ⟨dataInstrsFrom (0 + (astFuncRun ast).2.1.length) e,
    instrsOf (runHelpers o (astFuncRun ast).2.1 (astFuncRun ast).2.2).1, ?_⟩
  simp only [codeGenAST]
  rw [he, dataInstrsFrom_append]

end WACC
